import Mathlib

/-!
# Verification of the mud3 dungeon editor's grid engine

A shallow embedding of the editor's in-memory document model and its
mutation operations (single placement, flood-fill paint, reset add/merge,
template deletion, copy/paste, and the snapshot-based undo/redo history),
translated from the JavaScript source, together with proofs settling the
specification's claims about them.

Modelling conventions, used throughout:

* JavaScript arrays become `List`s; numbers indexing the grid become `Nat`
  (the source guards every enqueue/neighbour access with explicit
  `0 ≤ i < bound` checks, so negative indices never reach an array access
  on the paths modelled here; where the source *reads* possibly negative
  coordinates — the exit analyzer's neighbour probe — the embedding takes
  `Int` coordinates and returns the same "undefined → empty" result).
* A missing array slot read through `|| []` / `|| 0` becomes `List.getD`
  with the corresponding default.
* The room-reference string `@id{x,y,z}` is built by the source and then
  only ever compared for equality (`===`, `filter`); it is modelled as the
  record `RoomRef` carrying the same four components.
* `undefined`-able numeric fields become `Option Nat`; the JS truthiness
  test `v || d` becomes `jsOrNat`, which treats both `none` and `some 0`
  as falsy exactly as JS does.
-/

namespace MudEditor

/-- The document's `dimensions` object: positive integer bounds for the
three axes. -/
structure Dimensions where
  width : Nat
  height : Nat
  layers : Nat
deriving DecidableEq, Repr

/-- An (x, y, z) cell coordinate in external coordinates (z counts layers
bottom-up). -/
abbrev Coord := Nat × Nat × Nat

/-- The 3-dimensional grid, stored as the source stores it:
`grid[layerIndex][y][x]`, where `layerIndex = layers - 1 - z`. Each cell
holds `0` (empty) or a 1-based index into the room-template list. -/
abbrev Grid := List (List (List Nat))

/-- Bounds check `0 ≤ x < width ∧ 0 ≤ y < height ∧ 0 ≤ z < layers`, the
test the source performs before enqueueing a flood-fill neighbour or
applying a paste target. -/
def inBoundsB (dims : Dimensions) (c : Coord) : Bool :=
  decide (c.1 < dims.width) && decide (c.2.1 < dims.height) && decide (c.2.2 < dims.layers)

/-- The finite set of in-bounds coordinates (used for fuel bounds and
counting arguments). -/
def allCells (dims : Dimensions) : Finset Coord :=
  Finset.range dims.width ×ˢ Finset.range dims.height ×ˢ Finset.range dims.layers

theorem mem_allCells (dims : Dimensions) (c : Coord) :
    c ∈ allCells dims ↔ inBoundsB dims c = true := by
  cases c with
  | mk x yz =>
    cases yz with
    | mk y z =>
      simp only [allCells, inBoundsB, Finset.mem_product, Finset.mem_range,
        Bool.and_eq_true, decide_eq_true_eq]
      tauto

/-- Read the grid cell at external coordinates: the source computes
`layerIndex = layers - 1 - z` and reads `grid[layerIndex]?.[y]?.[x] || 0`;
a conceptual z at or above `layers` makes `layerIndex` negative in JS and
the read yields `undefined → 0`, hence the explicit guard here (Nat
subtraction would otherwise truncate into layer 0). -/
def getCell (dims : Dimensions) (g : Grid) (c : Coord) : Nat :=
  if c.2.2 < dims.layers then
    ((g.getD (dims.layers - 1 - c.2.2) []).getD c.2.1 []).getD c.1 0
  else 0

/-- Write the grid cell at external coordinates. Every write performed by
the modelled operations is bounds-guarded in the source, so the
out-of-range cases (where `List.set` is a no-op and JS would instead
extend the array) are never reached. -/
def setCell (dims : Dimensions) (g : Grid) (c : Coord) (v : Nat) : Grid :=
  if c.2.2 < dims.layers then
    let li := dims.layers - 1 - c.2.2
    let layer := g.getD li []
    let row := layer.getD c.2.1 []
    g.set li (layer.set c.2.1 (row.set c.1 v))
  else g

/-- Well-formedness of a loaded document's grid: dense storage with every
layer `height` rows of `width` cells, as produced by the loader /
initializer. -/
def GridWF (dims : Dimensions) (g : Grid) : Prop :=
  g.length = dims.layers ∧
    ∀ i < dims.layers, (g.getD i []).length = dims.height ∧
      ∀ j < dims.height, ((g.getD i []).getD j []).length = dims.width

instance (dims : Dimensions) (g : Grid) : Decidable (GridWF dims g) := by
  unfold GridWF; infer_instance

/-! ### List access/update laws used for the grid -/

theorem getD_set_self {α : Type} (l : List α) (n : Nat) (a d : α) (h : n < l.length) :
    (l.set n a).getD n d = a := by
  rw [List.getD_eq_getElem?_getD, List.getElem?_set_self]
  · rfl
  · exact h

theorem getD_set_ne {α : Type} (l : List α) (n m : Nat) (a d : α) (h : n ≠ m) :
    (l.set n a).getD m d = l.getD m d := by
  rw [List.getD_eq_getElem?_getD, List.getElem?_set_ne h, ← List.getD_eq_getElem?_getD]

theorem set_getD_self {α : Type} :
    ∀ (l : List α) (n : Nat) (d : α), n < l.length → l.set n (l.getD n d) = l := by
  intro l
  induction l with
  | nil => intro n d h; simp at h
  | cons a t ih =>
    intro n d h
    cases n with
    | zero => simp [List.set]
    | succ m =>
      simp only [List.set, List.getD, List.length_cons] at *
      have := ih m d (by omega)
      simp_all [List.getD]

/-! ### Grid read/write laws -/

theorem getD_set_eq {α : Type} (l : List α) (n : Nat) (a d : α) :
    (l.set n a).getD n d = if n < l.length then a else l.getD n d := by
  by_cases h : n < l.length
  · rw [getD_set_self _ _ _ _ h, if_pos h]
  · rw [List.set_eq_of_length_le (by omega), if_neg h]

theorem getCell_setCell_self (dims : Dimensions) (g : Grid) (c : Coord) (v : Nat)
    (wf : GridWF dims g) (hb : inBoundsB dims c = true) :
    getCell dims (setCell dims g c v) c = v := by
  obtain ⟨x, y, z⟩ := c
  simp only [inBoundsB, Bool.and_eq_true, decide_eq_true_eq] at hb
  obtain ⟨⟨hx, hy⟩, hz⟩ := hb
  have hL : dims.layers - 1 - z < dims.layers := by omega
  simp only [setCell, getCell, hz, if_true]
  rw [getD_set_self _ _ _ _ (by rw [wf.1]; exact hL)]
  have hlay := (wf.2 (dims.layers - 1 - z) hL).1
  rw [getD_set_self _ _ _ _ (by rw [hlay]; exact hy)]
  have hrow := (wf.2 (dims.layers - 1 - z) hL).2 y hy
  rw [getD_set_self _ _ _ _ (by rw [hrow]; exact hx)]

theorem getCell_setCell_ne (dims : Dimensions) (g : Grid) (c d : Coord) (v : Nat)
    (hne : d ≠ c) :
    getCell dims (setCell dims g c v) d = getCell dims g d := by
  obtain ⟨x, y, z⟩ := c
  obtain ⟨a, b, e⟩ := d
  by_cases hz : z < dims.layers
  · by_cases he : e < dims.layers
    · simp only [setCell, getCell, hz, he, if_true]
      by_cases hze : dims.layers - 1 - e = dims.layers - 1 - z
      · have hez : e = z := by omega
        rw [hze, getD_set_eq]
        by_cases hLl : dims.layers - 1 - z < g.length
        · rw [if_pos hLl]
          by_cases hby : b = y
          · subst hby
            have hax : a ≠ x := by
              intro hax; exact hne (by simp [hax, hez])
            rw [getD_set_eq]
            by_cases hyl : b < (g.getD (dims.layers - 1 - z) []).length
            · rw [if_pos hyl, getD_set_ne _ _ _ _ _ (fun h => hax h.symm)]
            · rw [if_neg hyl]
          · rw [getD_set_ne _ _ _ _ _ (fun h => hby h.symm)]
        · rw [if_neg hLl]
      · rw [getD_set_ne _ _ _ _ _ (fun h => hze h.symm)]
    · simp only [setCell, getCell, hz, he, if_true, if_false]
  · simp only [setCell, hz, if_false]

theorem setCell_getCell_self (dims : Dimensions) (g : Grid) (c : Coord)
    (wf : GridWF dims g) (hb : inBoundsB dims c = true) :
    setCell dims g c (getCell dims g c) = g := by
  obtain ⟨x, y, z⟩ := c
  simp only [inBoundsB, Bool.and_eq_true, decide_eq_true_eq] at hb
  obtain ⟨⟨hx, hy⟩, hz⟩ := hb
  have hL : dims.layers - 1 - z < dims.layers := by omega
  have hlay := (wf.2 (dims.layers - 1 - z) hL).1
  have hrow := (wf.2 (dims.layers - 1 - z) hL).2 y hy
  simp only [setCell, getCell, hz, if_true]
  rw [set_getD_self _ _ _ (by rw [hrow]; exact hx),
    set_getD_self _ _ _ (by rw [hlay]; exact hy),
    set_getD_self _ _ _ (by rw [wf.1]; exact hL)]

theorem GridWF_setCell (dims : Dimensions) (g : Grid) (c : Coord) (v : Nat)
    (wf : GridWF dims g) : GridWF dims (setCell dims g c v) := by
  obtain ⟨x, y, z⟩ := c
  by_cases hz : z < dims.layers
  · simp only [setCell, hz, if_true]
    refine ⟨by rw [List.length_set]; exact wf.1, ?_⟩
    intro i hi
    by_cases hiL : i = dims.layers - 1 - z
    · subst hiL
      rw [getD_set_eq, if_pos (by rw [wf.1]; omega)]
      have hlay := (wf.2 (dims.layers - 1 - z) (by omega)).1
      refine ⟨by rw [List.length_set]; exact hlay, ?_⟩
      intro j hj
      by_cases hjy : j = y
      · subst hjy
        rw [getD_set_eq]
        by_cases hyl : j < (g.getD (dims.layers - 1 - z) []).length
        · rw [if_pos hyl, List.length_set]
          exact (wf.2 (dims.layers - 1 - z) (by omega)).2 j hj
        · rw [if_neg hyl]
          exact (wf.2 (dims.layers - 1 - z) (by omega)).2 j hj
      · rw [getD_set_ne _ _ _ _ _ (fun h => hjy h.symm)]
        exact (wf.2 (dims.layers - 1 - z) (by omega)).2 j hj
    · rw [getD_set_ne _ _ _ _ _ (fun h => hiL h.symm)]
      exact wf.2 i hi
  · simp only [setCell, hz, if_false]
    exact wf

/-! ### Document data model -/

/-- A room template's `roomLinks` object: a map from direction name to an
external room reference string. -/
structure RoomLinks where
  north : Option String := none
  south : Option String := none
  east : Option String := none
  west : Option String := none
  up : Option String := none
  down : Option String := none
deriving DecidableEq, Repr

/-- A room template. `allowedExits` is the `DIRECTION` bitmask
(`NORTH = 1, SOUTH = 2, EAST = 4, WEST = 8, UP = 256, DOWN = 512`);
`none` models the field being absent from the loaded document. `dense`
models the truthiness of the `dense` flag. -/
structure Room where
  display : Option String := none
  description : Option String := none
  mapText : Option String := none
  mapColor : Option String := none
  dense : Bool := false
  allowedExits : Option Nat := none
  roomLinks : Option RoomLinks := none
deriving DecidableEq, Repr

/-- The components of a `@dungeonId{x,y,z}` room-reference string. The
source builds these strings and only ever compares them for equality, so
the record is interchangeable with the string. -/
structure RoomRef where
  dungeonId : String
  x : Nat
  y : Nat
  z : Nat
deriving DecidableEq, Repr

/-- A mob/object spawn rule. `minCount`/`maxCount` are `Option` because
loaded documents may omit them (the source reads them through `|| 1`). -/
structure Reset where
  templateId : String
  roomRef : RoomRef
  minCount : Option Nat := none
  maxCount : Option Nat := none
deriving DecidableEq, Repr

/-- A mob or object template; only `id`, `type` and `display` matter to
the modelled operations. -/
structure Template where
  id : String
  ttype : String
  display : Option String := none
deriving DecidableEq, Repr

/-- The full editable document (the `dungeon` object). -/
structure Dungeon where
  dimensions : Dimensions
  grid : Grid
  rooms : List Room
  templates : List Template
  resets : List Reset
  resetMessage : Option String := none
deriving DecidableEq, Repr

/-- The JS idiom `v || d` on an optional numeric field: `undefined` and
`0` are both falsy. -/
def jsOrNat (v : Option Nat) (d : Nat) : Nat :=
  match v with
  | none => d
  | some n => if n = 0 then d else n

/-- The `@dungeonId{x,y,z}` reference for a coordinate. -/
def mkRoomRef (did : String) (c : Coord) : RoomRef :=
  ⟨did, c.1, c.2.1, c.2.2⟩

/-! ### Reset add/merge (`addReset` and the mob/object branch of
`placeTemplateInSelection`) -/

/-- The reset-merge step shared by `addReset` and
`placeTemplateInSelection`: find the first reset with the same
`(roomRef, templateId)` pair; if found, set its `maxCount` to
`(maxCount || 1) + 1`; otherwise push a new reset with
`minCount = maxCount = 1`. -/
def addResetList (tid : String) (ref : RoomRef) : List Reset → List Reset
  | [] => [⟨tid, ref, some 1, some 1⟩]
  | r :: rs =>
    if r.roomRef = ref ∧ r.templateId = tid then
      { r with maxCount := some (jsOrNat r.maxCount 1 + 1) } :: rs
    else r :: addResetList tid ref rs

/-- `addReset(x, y, z)`: the single-cell entry point for placing a
mob/object reset with the currently selected template id. It performs the
merge-or-append unconditionally — the source contains no check that the
target cell holds a room. -/
def addReset (d : Dungeon) (did : String) (tid : String) (c : Coord) : Dungeon :=
  { d with resets := addResetList tid (mkRoomRef did c) d.resets }

/-- The mob/object branch of `placeTemplateInSelection`: for each selected
cell, the reset is merged/appended only when the cell's grid value is
positive (`roomIndex > 0`). The fold carries the reset list exactly as the
source's loop mutates `dungeon.resets`; the grid is not modified on this
branch. -/
def placeMobObjSelection (d : Dungeon) (did : String) (tid : String)
    (sel : List Coord) : Dungeon :=
  { d with
    resets := sel.foldl
      (fun rs c =>
        if getCell d.dimensions d.grid c > 0 then addResetList tid (mkRoomRef did c) rs
        else rs)
      d.resets }

/-! ### Mob/object template deletion (`deleteTemplate`, non-room branch) -/

/-- `deleteTemplate(type, id)` for mob/object templates: no-op when no
template has the id; otherwise remove every reset whose `templateId`
equals the id, then splice the first template with that id out of the
template list. The grid and the room list are not touched. -/
def deleteMobObjTemplate (d : Dungeon) (tid : String) : Dungeon :=
  match d.templates.find? (fun t => t.id = tid) with
  | none => d
  | some _ =>
    let resets1 := d.resets.filter (fun r => ¬ r.templateId = tid)
    let j := d.templates.findIdx (fun t => t.id = tid)
    let templates1 :=
      if j < d.templates.length then d.templates.eraseIdx j else d.templates
    { d with resets := resets1, templates := templates1 }

/-! ### Closed forms for the reset merge -/

theorem addResetList_of_forall_ne (tid : String) (ref : RoomRef) :
    ∀ rs : List Reset, (∀ q ∈ rs, ¬(q.roomRef = ref ∧ q.templateId = tid)) →
      addResetList tid ref rs = rs ++ [⟨tid, ref, some 1, some 1⟩] := by
  intro rs
  induction rs with
  | nil => intro _; rfl
  | cons r rs ih =>
    intro h
    have hr := h r (List.mem_cons_self r rs)
    simp only [addResetList, if_neg hr, List.cons_append, List.cons.injEq, true_and]
    exact ih (fun q hq => h q (List.mem_cons_of_mem r hq))

theorem addResetList_merge_first (tid : String) (ref : RoomRef) :
    ∀ (l1 : List Reset) (r : Reset) (l2 : List Reset),
      (∀ q ∈ l1, ¬(q.roomRef = ref ∧ q.templateId = tid)) →
      r.roomRef = ref → r.templateId = tid →
      addResetList tid ref (l1 ++ r :: l2)
        = l1 ++ { r with maxCount := some (jsOrNat r.maxCount 1 + 1) } :: l2 := by
  intro l1
  induction l1 with
  | nil =>
    intro r l2 _ h2 h3
    have hc : r.roomRef = ref ∧ r.templateId = tid := ⟨h2, h3⟩
    simp only [List.nil_append, addResetList, if_pos hc]
  | cons q l1 ih =>
    intro r l2 h1 h2 h3
    have hq := h1 q (List.mem_cons_self q l1)
    simp only [List.cons_append, addResetList, if_neg hq, List.cons.injEq, true_and]
    exact ih r l2 (fun q' hq' => h1 q' (List.mem_cons_of_mem q hq')) h2 h3

/-! ### Erasing the first matching template equals filtering, for
duplicate-free template ids -/

theorem eraseIdx_findIdx_eq_filter (tid : String) :
    ∀ l : List Template, (l.map Template.id).Nodup → (∃ t ∈ l, t.id = tid) →
      l.eraseIdx (l.findIdx (fun t => t.id = tid)) = l.filter (fun t => ¬ t.id = tid) := by
  intro l
  induction l with
  | nil => intro _ h; simp at h
  | cons t ts ih =>
    intro hnd hex
    rw [List.map_cons, List.nodup_cons] at hnd
    by_cases ht : t.id = tid
    · have hfi : (t :: ts).findIdx (fun q => decide (q.id = tid)) = 0 := by
        rw [List.findIdx_cons]
        simp [ht]
      rw [hfi, List.eraseIdx_cons_zero, List.filter_cons_of_neg (by simp [ht])]
      have hno : ∀ q ∈ ts, ¬ q.id = tid := by
        intro q hq hqid
        exact hnd.1 (by rw [ht, ← hqid]; exact List.mem_map_of_mem Template.id hq)
      rw [List.filter_eq_self.mpr (by intro q hq; simpa using hno q hq)]
    · have hfi : (t :: ts).findIdx (fun q => decide (q.id = tid)) = ts.findIdx (fun q => decide (q.id = tid)) + 1 := by
        rw [List.findIdx_cons]
        simp [ht]
      have hex2 : ∃ q ∈ ts, q.id = tid := by
        obtain ⟨q, hq, hqid⟩ := hex
        rcases List.mem_cons.mp hq with h | h
        · exact absurd (h ▸ hqid) ht
        · exact ⟨q, h, hqid⟩
      rw [hfi, List.eraseIdx_cons_succ, List.filter_cons_of_pos (by simp [ht])]
      rw [ih hnd.2 hex2]

/-- **C10**: deleting a mob/object template by id (for a document whose
template ids are duplicate-free and contain the id) removes exactly that
template record, removes exactly the resets whose `templateId` equals the
deleted id (so no reset dangles on it), and leaves the grid, the room
list, and all other resets unchanged. -/
theorem delete_mobobj_template (d : Dungeon) (tid : String)
    (hnd : (d.templates.map Template.id).Nodup)
    (hex : ∃ t ∈ d.templates, t.id = tid) :
    (deleteMobObjTemplate d tid).templates = d.templates.filter (fun t => ¬ t.id = tid)
    ∧ (deleteMobObjTemplate d tid).resets = d.resets.filter (fun r => ¬ r.templateId = tid)
    ∧ (∀ r ∈ (deleteMobObjTemplate d tid).resets, ¬ r.templateId = tid)
    ∧ (∀ r ∈ d.resets, ¬ r.templateId = tid → r ∈ (deleteMobObjTemplate d tid).resets)
    ∧ (deleteMobObjTemplate d tid).grid = d.grid
    ∧ (deleteMobObjTemplate d tid).rooms = d.rooms := by
  obtain ⟨t0, ht0, hid0⟩ := hex
  have hlt : d.templates.findIdx (fun t => t.id = tid) < d.templates.length := by
    apply List.findIdx_lt_length_of_exists
    exact ⟨t0, ht0, by simp [hid0]⟩
  have hfind : ∃ t, d.templates.find? (fun t => t.id = tid) = some t := by
    cases h : d.templates.find? (fun t => t.id = tid) with
    | none =>
      have := List.find?_eq_none.mp h t0 ht0
      simp [hid0] at this
    | some t => exact ⟨t, rfl⟩
  obtain ⟨tf, htf⟩ := hfind
  have hres : deleteMobObjTemplate d tid =
      { d with resets := d.resets.filter (fun r => ¬ r.templateId = tid),
               templates := d.templates.eraseIdx (d.templates.findIdx (fun t => t.id = tid)) } := by
    rw [deleteMobObjTemplate, htf]
    simp [hlt]
  rw [hres]
  refine ⟨eraseIdx_findIdx_eq_filter tid d.templates hnd ⟨t0, ht0, hid0⟩, rfl, ?_, ?_, rfl, rfl⟩
  · intro r hr
    have := List.of_mem_filter hr
    simpa using this
  · intro r hr hne
    exact List.mem_filter_of_mem hr (by simpa using hne)

/-- A small concrete document: one placed room carrying one mob reset and
one object reset, and two mob/object templates. -/
def dC10 : Dungeon :=
  { dimensions := ⟨1, 1, 1⟩
    grid := [[[1]]]
    rooms := [{ display := some "A" }]
    templates := [⟨"m1", "mob", none⟩, ⟨"o1", "object", none⟩]
    resets := [⟨"m1", ⟨"d", 0, 0, 0⟩, some 1, some 1⟩, ⟨"o1", ⟨"d", 0, 0, 0⟩, some 1, some 2⟩]
    resetMessage := none }

/-- Witness for C10 at a concrete document: deleting mob template `m1`
drops exactly its template record and its reset. -/
theorem delete_mobobj_template_witness :
    (deleteMobObjTemplate dC10 "m1").templates = [⟨"o1", "object", none⟩]
    ∧ (deleteMobObjTemplate dC10 "m1").resets = [⟨"o1", ⟨"d", 0, 0, 0⟩, some 1, some 2⟩]
    ∧ (deleteMobObjTemplate dC10 "m1").grid = dC10.grid
    ∧ (deleteMobObjTemplate dC10 "m1").rooms = dC10.rooms := by
  have h := delete_mobobj_template dC10 "m1" (by decide) (by decide)
  exact ⟨h.1.trans (by decide), h.2.1.trans (by decide), h.2.2.2.2.1, h.2.2.2.2.2⟩

/-- **C8** (amended): adding a reset for an existing
`(templateId, roomRef)` pair rewrites only the first matching record,
setting its `maxCount` to `jsOrNat maxCount 1 + 1` — an increment by
exactly 1 whenever the stored `maxCount` is at least 1 (a missing or zero
`maxCount` is treated as 1 and becomes 2) — leaving `minCount` and every
other record unchanged and creating no second record; when no record
matches the pair, a new reset with `minCount = maxCount = 1` is
appended. -/
theorem reset_merge_amended (tid : String) (ref : RoomRef)
    (l1 : List Reset) (r : Reset) (l2 : List Reset)
    (h1 : ∀ q ∈ l1, ¬(q.roomRef = ref ∧ q.templateId = tid))
    (h2 : r.roomRef = ref) (h3 : r.templateId = tid) :
    addResetList tid ref (l1 ++ r :: l2)
      = l1 ++ { r with maxCount := some (jsOrNat r.maxCount 1 + 1) } :: l2
    ∧ (∀ m, r.maxCount = some m → 1 ≤ m → jsOrNat r.maxCount 1 + 1 = m + 1)
    ∧ (∀ rs : List Reset, (∀ q ∈ rs, ¬(q.roomRef = ref ∧ q.templateId = tid)) →
        addResetList tid ref rs = rs ++ [⟨tid, ref, some 1, some 1⟩]) := by
  refine ⟨addResetList_merge_first tid ref l1 r l2 h1 h2 h3, ?_,
    addResetList_of_forall_ne tid ref⟩
  intro m hm h1m
  simp only [jsOrNat, hm]
  rw [if_neg (by omega)]

/-- Witness for C8: merging onto a stored `maxCount = 5` yields 6, and
adding with no matching record appends a fresh `1-1` reset. -/
theorem reset_merge_amended_witness :
    addResetList "T" ⟨"d", 0, 0, 0⟩ [⟨"T", ⟨"d", 0, 0, 0⟩, some 1, some 5⟩]
      = [⟨"T", ⟨"d", 0, 0, 0⟩, some 1, some 6⟩]
    ∧ addResetList "T" ⟨"d", 0, 0, 0⟩ [⟨"U", ⟨"d", 0, 0, 0⟩, some 2, some 3⟩]
      = [⟨"U", ⟨"d", 0, 0, 0⟩, some 2, some 3⟩, ⟨"T", ⟨"d", 0, 0, 0⟩, some 1, some 1⟩] := by
  have h := reset_merge_amended "T" ⟨"d", 0, 0, 0⟩ []
    ⟨"T", ⟨"d", 0, 0, 0⟩, some 1, some 5⟩ [] (by intro q hq; cases hq) rfl rfl
  refine ⟨by simpa using h.1, ?_⟩
  rw [h.2.2 [⟨"U", ⟨"d", 0, 0, 0⟩, some 2, some 3⟩] (by decide)]
  rfl

/-- **C8** counterexample: on a stored reset whose `maxCount` is 0, the
merge sets `maxCount` to 2, not to `0 + 1` — the claimed "increments
maxCount by exactly 1" fails for this reset list. -/
theorem reset_merge_counterexample :
    (addResetList "T" ⟨"d", 0, 0, 0⟩
        [⟨"T", ⟨"d", 0, 0, 0⟩, some 1, some 0⟩]).map Reset.maxCount = [some 2]
    ∧ ¬ ((some 2 : Option Nat) = some (0 + 1)) := by decide

/-- An empty concrete document with one mob template and no placed rooms. -/
def dC3 : Dungeon :=
  { dimensions := ⟨1, 1, 1⟩
    grid := [[[0]]]
    rooms := []
    templates := [⟨"m1", "mob", none⟩]
    resets := []
    resetMessage := none }

/-- **C3** (amended): placing a mob/object template over a selection
refuses every empty cell (the reset list is unchanged when all selected
cells are empty), but the single-cell `addReset` entry point performs the
merge/append regardless of the cell being empty: with no matching record
present it appends a fresh reset even at an empty cell. -/
theorem empty_cell_reset_amended (d : Dungeon) (did tid : String)
    (sel : List Coord) (c : Coord)
    (hsel : ∀ e ∈ sel, getCell d.dimensions d.grid e = 0)
    (_hc : getCell d.dimensions d.grid c = 0)
    (hnone : ∀ q ∈ d.resets, ¬(q.roomRef = mkRoomRef did c ∧ q.templateId = tid)) :
    (placeMobObjSelection d did tid sel).resets = d.resets
    ∧ (addReset d did tid c).resets
        = d.resets ++ [⟨tid, mkRoomRef did c, some 1, some 1⟩] := by
  constructor
  · show sel.foldl _ d.resets = d.resets
    have main : ∀ sel2 : List Coord, (∀ e ∈ sel2, getCell d.dimensions d.grid e = 0) →
        sel2.foldl
          (fun rs e =>
            if getCell d.dimensions d.grid e > 0 then addResetList tid (mkRoomRef did e) rs
            else rs)
          d.resets = d.resets := by
      intro sel2
      induction sel2 with
      | nil => intro _; rfl
      | cons e tl ih =>
        intro h
        have he := h e (List.mem_cons_self e tl)
        rw [List.foldl_cons, he]
        rw [if_neg (by omega)]
        exact ih (fun q hq => h q (List.mem_cons_of_mem e hq))
    exact main sel hsel
  · show addResetList tid (mkRoomRef did c) d.resets = _
    exact addResetList_of_forall_ne tid (mkRoomRef did c) d.resets hnone

/-- Witness for C3 at the concrete empty document. -/
theorem empty_cell_reset_amended_witness :
    (placeMobObjSelection dC3 "d" "m1" [(0, 0, 0)]).resets = dC3.resets
    ∧ (addReset dC3 "d" "m1" (0, 0, 0)).resets
        = dC3.resets ++ [⟨"m1", mkRoomRef "d" (0, 0, 0), some 1, some 1⟩] :=
  empty_cell_reset_amended dC3 "d" "m1" [(0, 0, 0)] (0, 0, 0)
    (by decide) (by decide) (by intro q hq; cases hq)

/-- **C3** counterexample: the cell (0,0,0) of `dC3` is in bounds and
empty, yet the single-cell `addReset` entry point creates a reset record
there — the claimed refusal does not hold through every entry point. -/
theorem empty_cell_reset_counterexample :
    inBoundsB dC3.dimensions (0, 0, 0) = true
    ∧ getCell dC3.dimensions dC3.grid (0, 0, 0) = 0
    ∧ ¬ ((addReset dC3 "d" "m1" (0, 0, 0)).resets = dC3.resets) := by decide

/-! ### Adjacency / exit analyzer (`getRoomAt`, `hasExit`,
`getExitIndicators`) -/

/-- The four lateral directions. -/
inductive Dir where
  | north
  | south
  | east
  | west
deriving DecidableEq, Repr

/-- The `DIRECTION` bit for a lateral direction
(`NORTH = 1 <<< 0`, `SOUTH = 1 <<< 1`, `EAST = 1 <<< 2`, `WEST = 1 <<< 3`). -/
def dirBit : Dir → Nat
  | .north => 1
  | .south => 2
  | .east => 4
  | .west => 8

def dirOpposite : Dir → Dir
  | .north => .south
  | .south => .north
  | .east => .west
  | .west => .east

/-- JS truthiness of an optional string (`undefined` and `""` are falsy). -/
def jsTruthyStr : Option String → Bool
  | none => false
  | some s => decide (¬ s = "")

/-- The `roomLinks[dir.name]` lookup. -/
def roomLinkFor (l : RoomLinks) : Dir → Option String
  | .north => l.north
  | .south => l.south
  | .east => l.east
  | .west => l.west

/-- `getRoomAt(dungeon, x, y, z)`: neighbour probes may pass negative
coordinates, which read `undefined → 0 → null` in the source; positive
out-of-range ones likewise default to empty. -/
def getRoomAt (d : Dungeon) (x y : Int) (z : Nat) : Option Room :=
  let ri :=
    if 0 ≤ x ∧ 0 ≤ y then getCell d.dimensions d.grid (x.toNat, y.toNat, z) else 0
  if ri > 0 then d.rooms.get? (ri - 1) else none

/-- `hasExit(room, direction)`: a null room, or a room whose
`allowedExits` is absent or 0 (both falsy), has no exits at all;
otherwise the direction's bit is tested. -/
def hasExit (room : Option Room) (dir : Dir) : Bool :=
  match room with
  | none => false
  | some r =>
    match r.allowedExits with
    | none => false
    | some m => if m = 0 then false else decide (m &&& dirBit dir ≠ 0)

/-- The per-side classification produced by the exit analyzer
(`'exit'`, `'one-way-exit'`, `'one-way-blocked'`, `'blocked'`,
`'link'`). -/
inductive Indicator where
  | exitTwoWay
  | oneWayExit
  | oneWayBlocked
  | blocked
  | link
deriving DecidableEq, Repr

/-- The four indicator slots (`null` = no special line). -/
structure Indicators where
  north : Option Indicator
  south : Option Indicator
  east : Option Indicator
  west : Option Indicator
deriving DecidableEq, Repr

/-- The neighbour coordinate probed for a direction. -/
def dirNeighbor (x y : Nat) : Dir → Int × Int
  | .north => ((x : Int), (y : Int) - 1)
  | .south => ((x : Int), (y : Int) + 1)
  | .east => ((x : Int) + 1, (y : Int))
  | .west => ((x : Int) - 1, (y : Int))

/-- One direction of the non-empty, non-dense branch of
`getExitIndicators`: empty or dense neighbour → blocked; a truthy
`roomLinks` entry → link; otherwise classify from the current room's exit
bit and the neighbour's reciprocal bit. -/
def indicatorFor (d : Dungeon) (cur : Room) (x y z : Nat) (dir : Dir) : Option Indicator :=
  let nc := dirNeighbor x y dir
  match getRoomAt d nc.1 nc.2 z with
  | none => some .blocked
  | some nr =>
    if nr.dense then some .blocked
    else if (match cur.roomLinks with
             | none => false
             | some l => jsTruthyStr (roomLinkFor l dir)) then some .link
    else if hasExit (some cur) dir then
      if hasExit (some nr) (dirOpposite dir) then some .exitTwoWay else some .oneWayExit
    else
      if hasExit (some nr) (dirOpposite dir) then some .oneWayBlocked else some .blocked

/-- `getExitIndicators(dungeon, x, y, z)`. -/
def getExitIndicators (d : Dungeon) (x y z : Nat) : Indicators :=
  match getRoomAt d (x : Int) (y : Int) z with
  | none =>
    { north := if (getRoomAt d (dirNeighbor x y .north).1 (dirNeighbor x y .north).2 z).isSome
        then some .blocked else none
      south := if (getRoomAt d (dirNeighbor x y .south).1 (dirNeighbor x y .south).2 z).isSome
        then some .blocked else none
      east := if (getRoomAt d (dirNeighbor x y .east).1 (dirNeighbor x y .east).2 z).isSome
        then some .blocked else none
      west := if (getRoomAt d (dirNeighbor x y .west).1 (dirNeighbor x y .west).2 z).isSome
        then some .blocked else none }
  | some cur =>
    if cur.dense then ⟨some .blocked, some .blocked, some .blocked, some .blocked⟩
    else
      { north := indicatorFor d cur x y z .north
        south := indicatorFor d cur x y z .south
        east := indicatorFor d cur x y z .east
        west := indicatorFor d cur x y z .west }

/-- A 2×1×1 document: room A at (0,0,0) with `allowedExits` unset, room B
at (1,0,0) with `allowedExits = NSEW = 15`. -/
def dC9 : Dungeon :=
  { dimensions := ⟨2, 1, 1⟩
    grid := [[[1, 2]]]
    rooms := [{ display := some "A", allowedExits := none },
              { display := some "B", allowedExits := some 15 }]
    templates := []
    resets := []
    resetMessage := none }

/-- **C9**: on the document `dC9`, room A's `allowedExits` is unset and
its east neighbour B allows all four cardinal exits (so B can exit back
west), yet the exit analyzer treats A as allowing no exits at all —
`hasExit` returns `false` for A east — and classifies A's east side
`one-way-blocked`, not the two-way `exit` the claimed NSEW default would
give. -/
theorem exit_default_divergence :
    (dC9.rooms.get? 0).bind Room.allowedExits = none
    ∧ hasExit (dC9.rooms.get? 0) Dir.east = false
    ∧ hasExit (dC9.rooms.get? 1) Dir.west = true
    ∧ (getExitIndicators dC9 0 0 0).east = some Indicator.oneWayBlocked
    ∧ ¬ ((getExitIndicators dC9 0 0 0).east = some Indicator.exitTwoWay) := by decide

/-! ### History manager (`saveStateToHistory`, `undo`, `redo`)

The value-level model: snapshots are values (a deep clone of a value is
the value itself). This is observationally faithful as long as no
mutation happens after a restore — exactly the shape of the undo/redo
round-trip scenario. The aliasing introduced by
`restoreStateFromHistory` needs the heap model further below. -/

def maxHistorySize : Nat := 50

structure EditorState where
  live : Dungeon
  history : List Dungeon
  historyIndex : Nat
deriving DecidableEq, Repr

/-- Loading a document initializes `history = [cloneDungeonState(dungeon)]`
and `historyIndex = 0`. -/
def loadEditor (d : Dungeon) : EditorState := ⟨d, [d], 0⟩

/-- `saveStateToHistory()`: truncate redo tail if not at the end, push a
clone of the *current* (pre-change) state, point the index at the new
end, and drop the oldest entry past the size cap. -/
def saveStateToHistory (e : EditorState) : EditorState :=
  let hist1 :=
    if e.historyIndex < e.history.length - 1 then e.history.take (e.historyIndex + 1)
    else e.history
  let hist2 := hist1 ++ [e.live]
  if hist2.length > maxHistorySize then ⟨e.live, hist2.drop 1, hist2.length - 2⟩
  else ⟨e.live, hist2, hist2.length - 1⟩

/-- `placeRoomTemplate(x, y, z)` in insert mode as a history-wrapped
mutation: save state to history first, then overwrite the cell with the
selected template's 1-based index. -/
def editorPlaceRoomInsert (e : EditorState) (sel : Nat) (c : Coord) : EditorState :=
  let e1 := saveStateToHistory e
  { e1 with live :=
      { e1.live with grid := setCell e1.live.dimensions e1.live.grid c (sel + 1) } }

/-- `undo()`: no-op at index 0; otherwise decrement the index and restore
that snapshot. -/
def undo (e : EditorState) : EditorState :=
  if e.historyIndex = 0 then e
  else
    let i := e.historyIndex - 1
    { e with historyIndex := i, live := e.history.getD i e.live }

/-- `redo()`: no-op at the last entry; otherwise increment the index and
restore that snapshot. -/
def redo (e : EditorState) : EditorState :=
  if e.history.length - 1 ≤ e.historyIndex then e
  else
    let i := e.historyIndex + 1
    { e with historyIndex := i, live := e.history.getD i e.live }

/-- A 1×1×1 document with one room template and an empty grid. -/
def dC1 : Dungeon :=
  { dimensions := ⟨1, 1, 1⟩
    grid := [[[0]]]
    rooms := [{ display := some "A" }]
    templates := []
    resets := []
    resetMessage := none }

/-- The editor after loading `dC1` and performing one mutation (placing
room 1 at (0,0,0)). -/
def eC1 : EditorState := editorPlaceRoomInsert (loadEditor dC1) 0 (0, 0, 0)

/-- **C1**: on the loaded document `dC1` with N = 1 mutation, undo at the
initial state and redo at the final state are no-ops and undo restores
the pre-mutation state — but `redo` then yields the *pre*-mutation state
again, not the post-mutation one: `saveStateToHistory` runs before each
mutation and the final state is never pushed, so the mutated state is
absent from history and redo cannot restore it. -/
theorem undo_redo_divergence :
    undo (loadEditor dC1) = loadEditor dC1
    ∧ redo eC1 = eC1
    ∧ (undo eC1).live = dC1
    ∧ ¬ (eC1.live = dC1)
    ∧ (redo (undo eC1)).live = dC1
    ∧ ¬ ((redo (undo eC1)).live = eC1.live) := by decide

/-! ### Heap model of the history (reference semantics of
`restoreStateFromHistory`)

The snapshots' independence claim is about JavaScript object identity:
`cloneDungeonState` allocates fresh nested objects, mutations write the
live objects in place (`layer[y][x] = v`), and `restoreStateFromHistory`
assigns `dungeon.grid = state.grid` — making the live grid an *alias* of
the snapshot's grid, with no clone. The model tracks grid objects in an
explicit heap: a `Nat` reference indexes the list of allocated grids. -/

structure GridHeapState where
  heap : List Grid
  liveGrid : Nat
  history : List Nat
  historyIndex : Nat
deriving DecidableEq, Repr

/-- Dereference a grid object. -/
def heapAt (s : GridHeapState) (r : Nat) : Grid := s.heap.getD r []

/-- Loading allocates the live grid and a deep clone of it as the first
history entry. -/
def loadHeap (g : Grid) : GridHeapState := ⟨[g, g], 0, [1], 0⟩

/-- `saveStateToHistory()` in the heap model: `cloneDungeonState` copies
the live grid's current contents into a fresh object, which is pushed. -/
def saveHeap (s : GridHeapState) : GridHeapState :=
  let hist1 :=
    if s.historyIndex < s.history.length - 1 then s.history.take (s.historyIndex + 1)
    else s.history
  let heap2 := s.heap ++ [heapAt s s.liveGrid]
  let hist2 := hist1 ++ [s.heap.length]
  if hist2.length > maxHistorySize then ⟨heap2, s.liveGrid, hist2.drop 1, hist2.length - 2⟩
  else ⟨heap2, s.liveGrid, hist2, hist2.length - 1⟩

/-- A history-wrapped grid mutation: save, then overwrite the object the
live reference points to (in-place mutation of the live grid). -/
def mutateHeap (f : Grid → Grid) (s : GridHeapState) : GridHeapState :=
  let s1 := saveHeap s
  { s1 with heap := s1.heap.set s1.liveGrid (f (heapAt s1 s1.liveGrid)) }

/-- `undo()` under reference semantics: `restoreStateFromHistory` assigns
`dungeon.grid = state.grid`, so the live grid reference *becomes* the
snapshot's reference — no copy is made. -/
def undoHeap (s : GridHeapState) : GridHeapState :=
  if s.historyIndex = 0 then s
  else
    let i := s.historyIndex - 1
    ⟨s.heap, s.history.getD i s.liveGrid, s.history, i⟩

/-- The loaded 2×1×1 grid for the aliasing scenario. -/
def gC2 : Grid := [[[0, 0]]]

/-- Place room 1 at (0,0,0). -/
def fC2a (g : Grid) : Grid := setCell ⟨2, 1, 1⟩ g (0, 0, 0) 1

/-- Place room 1 at (1,0,0). -/
def fC2b (g : Grid) : Grid := setCell ⟨2, 1, 1⟩ g (1, 0, 0) 1

/-- load, mutate, undo. -/
def sC2 : GridHeapState := undoHeap (mutateHeap fC2a (loadHeap gC2))

/-- ... then mutate again after the restore. -/
def sC2' : GridHeapState := mutateHeap fC2b sC2

/-- **C2**: after load, one mutation and an undo, the live grid aliases
the history's first snapshot (reference 1); the next mutation then writes
*through* that alias, changing the contents of a snapshot already stored
in the history — and a further undo consequently fails to restore the
loaded grid. The restore installs an alias, not the claimed deep-cloned
copy. -/
theorem snapshot_alias_divergence :
    sC2.liveGrid = sC2.history.getD 0 99
    ∧ sC2'.history.getD 0 99 = sC2.history.getD 0 99
    ∧ heapAt sC2 (sC2.history.getD 0 99) = gC2
    ∧ ¬ (heapAt sC2' (sC2'.history.getD 0 99) = gC2)
    ∧ heapAt sC2' (sC2'.history.getD 0 99) = [[[0, 1]]]
    ∧ ¬ (heapAt (undoHeap sC2') (undoHeap sC2').liveGrid = gC2) := by decide

/-! ### Room template deletion (`deleteTemplate`, room branch)

The source's first pass walks `grid[layerIndex][y][x]` with three nested
loops, clearing every cell equal to the deleted template's 1-based index
`ti = i + 1` and filtering that cell's resets out as it goes (the reset
list threads through the walk); the second pass decrements every value
greater than `ti`. The walk is transcribed as structural recursion over
the same lists with the same counters. -/

/-- First pass over one row: `x` is the column counter, `rs` the reset
list being filtered as cells are cleared. -/
def pass1Row (did : String) (ti : Nat) (y z : Nat) :
    List Nat → Nat → List Reset → List Nat × List Reset
  | [], _, rs => ([], rs)
  | v :: vs, x, rs =>
    let p : Nat × List Reset :=
      if v = ti then (0, rs.filter (fun r => ¬ r.roomRef = ⟨did, x, y, z⟩))
      else (v, rs)
    let q := pass1Row did ti y z vs (x + 1) p.2
    (p.1 :: q.1, q.2)

/-- First pass over one layer: `y` is the row counter. -/
def pass1Layer (did : String) (ti : Nat) (z : Nat) :
    List (List Nat) → Nat → List Reset → List (List Nat) × List Reset
  | [], _, rs => ([], rs)
  | row :: rows, y, rs =>
    let p := pass1Row did ti y z row 0 rs
    let q := pass1Layer did ti z rows (y + 1) p.2
    (p.1 :: q.1, q.2)

/-- First pass over the whole grid: `li` is the layer counter and the
external z of a layer is `layers - 1 - li`. -/
def pass1Grid (did : String) (ti : Nat) (layers : Nat) :
    Grid → Nat → List Reset → Grid × List Reset
  | [], _, rs => ([], rs)
  | layer :: ls, li, rs =>
    let p := pass1Layer did ti (layers - 1 - li) layer 0 rs
    let q := pass1Grid did ti layers ls (li + 1) p.2
    (p.1 :: q.1, q.2)

/-- `deleteTemplate("room", i)`: clear cells equal to `i+1` with their
coordinate-scoped resets, splice the room out, then decrement every grid
value greater than `i+1`. No-op when the index is out of range. -/
def deleteRoomTemplate (d : Dungeon) (did : String) (i : Nat) : Dungeon :=
  if i < d.rooms.length then
    let p := pass1Grid did (i + 1) d.dimensions.layers d.grid 0 d.resets
    let grid2 :=
      p.1.map (fun layer => layer.map (fun row =>
        row.map (fun v => if v > i + 1 then v - 1 else v)))
    { d with grid := grid2, rooms := d.rooms.eraseIdx i, resets := p.2 }
  else d

/-- The net effect of deleting template index `i` on one grid value. -/
def reindexAfterDelete (i v : Nat) : Nat :=
  if v = i + 1 then 0 else if v > i + 1 then v - 1 else v

/-- A reset is hit by the first pass over a row starting at column `x`
when its reference names a cleared cell of that row. -/
def rowHitB (did : String) (ti y z : Nat) (row : List Nat) (x : Nat) (r : Reset) : Bool :=
  decide (r.roomRef.dungeonId = did) && decide (r.roomRef.y = y) &&
    decide (r.roomRef.z = z) && decide (x ≤ r.roomRef.x) &&
    decide (r.roomRef.x - x < row.length) &&
    decide (row.getD (r.roomRef.x - x) 0 = ti)

/-- A reset hit by the first pass over a layer's rows starting at row `y`. -/
def layerHitB (did : String) (ti z : Nat) (rows : List (List Nat)) (y : Nat) (r : Reset) : Bool :=
  decide (y ≤ r.roomRef.y) && decide (r.roomRef.y - y < rows.length) &&
    rowHitB did ti r.roomRef.y z (rows.getD (r.roomRef.y - y) []) 0 r

/-- A reset hit by the first pass over the layers starting at layer
counter `li`. -/
def gridHitB (did : String) (ti layers : Nat) (ls : Grid) (li : Nat) (r : Reset) : Bool :=
  decide (r.roomRef.z + li < layers) &&
    decide (layers - 1 - li - r.roomRef.z < ls.length) &&
    layerHitB did ti r.roomRef.z (ls.getD (layers - 1 - li - r.roomRef.z) []) 0 r

theorem rowHitB_cons (did : String) (ti y z v : Nat) (vs : List Nat) (x : Nat) (r : Reset) :
    rowHitB did ti y z (v :: vs) x r
      = ((decide (r.roomRef = (⟨did, x, y, z⟩ : RoomRef)) && decide (v = ti))
          || rowHitB did ti y z vs (x + 1) r) := by
  obtain ⟨tid, ⟨rdid, rx, ry, rz⟩, mn, mx⟩ := r
  apply Bool.coe_iff_coe.mp
  simp only [rowHitB, RoomRef.mk.injEq, Bool.and_eq_true, Bool.or_eq_true,
    decide_eq_true_eq, List.length_cons, and_assoc]
  by_cases hx2 : rx = x
  · subst hx2
    simp only [Nat.sub_self, List.getD_cons_zero, true_and, and_true, Nat.le_refl,
      eq_self_iff_true]
    constructor
    · rintro ⟨h1, h2, h3, _, h5⟩
      exact Or.inl ⟨h1, h2, h3, h5⟩
    · rintro (⟨h1, h2, h3, h5⟩ | ⟨_, _, _, h4, _⟩)
      · exact ⟨h1, h2, h3, by omega, h5⟩
      · exact absurd h4 (by omega)
  · by_cases hxe : x ≤ rx
    · have hsub : rx - x = (rx - (x + 1)) + 1 := by omega
      simp only [hsub, List.getD_cons_succ]
      constructor
      · rintro ⟨h1, h2, h3, _, h5, h6⟩
        exact Or.inr ⟨h1, h2, h3, by omega, by omega, h6⟩
      · rintro (⟨h1, hx, h2, h3, h5⟩ | ⟨h1, h2, h3, h4, h5, h6⟩)
        · exact absurd hx hx2
        · exact ⟨h1, h2, h3, hxe, by omega, h6⟩
    · constructor
      · rintro ⟨_, _, _, h4, _, _⟩
        exact absurd h4 hxe
      · rintro (⟨_, hx, _, _, _⟩ | ⟨_, _, _, h4, _, _⟩)
        · exact absurd hx hx2
        · exact absurd (by omega : x ≤ rx) hxe

theorem layerHitB_cons (did : String) (ti z : Nat) (row : List Nat)
    (rows : List (List Nat)) (y : Nat) (r : Reset) :
    layerHitB did ti z (row :: rows) y r
      = (rowHitB did ti y z row 0 r || layerHitB did ti z rows (y + 1) r) := by
  obtain ⟨tid, ⟨rdid, rx, ry, rz⟩, mn, mx⟩ := r
  apply Bool.coe_iff_coe.mp
  simp only [layerHitB, Bool.and_eq_true, Bool.or_eq_true, decide_eq_true_eq,
    List.length_cons, and_assoc]
  by_cases hy2 : ry = y
  · subst hy2
    simp only [Nat.sub_self, List.getD_cons_zero, Nat.le_refl, true_and]
    constructor
    · rintro ⟨_, h3⟩
      exact Or.inl h3
    · rintro (h3 | ⟨h1, _, _⟩)
      · exact ⟨by omega, h3⟩
      · exact absurd h1 (by omega)
  · have hrow : rowHitB did ti y z row 0 ⟨tid, ⟨rdid, rx, ry, rz⟩, mn, mx⟩ = false := by
      simp [rowHitB, hy2]
    rw [hrow]
    by_cases hye : y ≤ ry
    · have hsub : ry - y = (ry - (y + 1)) + 1 := by omega
      simp only [hsub, List.getD_cons_succ, Bool.false_eq_true, false_or]
      constructor
      · rintro ⟨_, h2, h3⟩
        exact ⟨by omega, by omega, h3⟩
      · rintro ⟨_, h2, h3⟩
        exact ⟨hye, by omega, h3⟩
    · simp only [Bool.false_eq_true, false_or]
      constructor
      · rintro ⟨h1, _, _⟩
        exact absurd h1 hye
      · rintro ⟨h1, _, _⟩
        exact absurd (by omega : y ≤ ry) hye

theorem gridHitB_cons (did : String) (ti layers : Nat) (layer : List (List Nat))
    (ls : Grid) (li : Nat) (r : Reset) (h : li + (layer :: ls).length ≤ layers) :
    gridHitB did ti layers (layer :: ls) li r
      = (layerHitB did ti (layers - 1 - li) layer 0 r
          || gridHitB did ti layers ls (li + 1) r) := by
  obtain ⟨tid, ⟨rdid, rx, ry, rz⟩, mn, mx⟩ := r
  simp only [List.length_cons] at h
  apply Bool.coe_iff_coe.mp
  simp only [gridHitB, Bool.and_eq_true, Bool.or_eq_true, decide_eq_true_eq,
    List.length_cons, and_assoc]
  by_cases hz : rz = layers - 1 - li
  · subst hz
    simp only [Nat.sub_self, List.getD_cons_zero]
    constructor
    · rintro ⟨_, _, h3⟩
      exact Or.inl h3
    · rintro (h3 | ⟨h1, _, _⟩)
      · exact ⟨by omega, by omega, h3⟩
      · exact absurd h1 (by omega)
  · have hlay : layerHitB did ti (layers - 1 - li) layer 0 ⟨tid, ⟨rdid, rx, ry, rz⟩, mn, mx⟩
        = false := by
      simp [layerHitB, rowHitB, hz]
    rw [hlay]
    simp only [Bool.false_eq_true, false_or]
    by_cases hzlt : rz + li + 1 < layers
    · have hsub : layers - 1 - li - rz = (layers - 1 - (li + 1) - rz) + 1 := by omega
      simp only [hsub, List.getD_cons_succ]
      constructor
      · rintro ⟨_, h2, h3⟩
        exact ⟨by omega, by omega, h3⟩
      · rintro ⟨_, h2, h3⟩
        exact ⟨by omega, by omega, h3⟩
    · constructor
      · rintro ⟨h1, _, _⟩
        exact absurd h1 (by omega)
      · rintro ⟨h1, _, _⟩
        exact absurd h1 (by omega)

theorem pass1Row_fst (did : String) (ti y z : Nat) :
    ∀ (row : List Nat) (x : Nat) (rs : List Reset),
      (pass1Row did ti y z row x rs).1 = row.map (fun v => if v = ti then 0 else v) := by
  intro row
  induction row with
  | nil => intro x rs; rfl
  | cons v vs ih =>
    intro x rs
    simp only [pass1Row, List.map_cons]
    by_cases hv : v = ti
    · simp only [if_pos hv, ih]
    · simp only [if_neg hv, ih]

theorem pass1Row_snd (did : String) (ti y z : Nat) :
    ∀ (row : List Nat) (x : Nat) (rs : List Reset),
      (pass1Row did ti y z row x rs).2
        = rs.filter (fun r => ! rowHitB did ti y z row x r) := by
  intro row
  induction row with
  | nil =>
    intro x rs
    simp only [pass1Row]
    rw [Eq.comm, List.filter_eq_self]
    intro r hr
    simp [rowHitB]
  | cons v vs ih =>
    intro x rs
    simp only [pass1Row]
    by_cases hv : v = ti
    · simp only [if_pos hv, ih]
      rw [List.filter_filter]
      apply List.filter_congr
      intro r hr
      simp only [rowHitB_cons, hv, decide_True, Bool.and_true, Bool.not_or, decide_not]
      rw [Bool.and_comm]
    · simp only [if_neg hv, ih]
      apply List.filter_congr
      intro r hr
      simp [rowHitB_cons, hv]

theorem pass1Layer_fst (did : String) (ti z : Nat) :
    ∀ (rows : List (List Nat)) (y : Nat) (rs : List Reset),
      (pass1Layer did ti z rows y rs).1
        = rows.map (List.map (fun v => if v = ti then 0 else v)) := by
  intro rows
  induction rows with
  | nil => intro y rs; rfl
  | cons row rows ih =>
    intro y rs
    simp only [pass1Layer, List.map_cons, ih, pass1Row_fst]

theorem pass1Layer_snd (did : String) (ti z : Nat) :
    ∀ (rows : List (List Nat)) (y : Nat) (rs : List Reset),
      (pass1Layer did ti z rows y rs).2
        = rs.filter (fun r => ! layerHitB did ti z rows y r) := by
  intro rows
  induction rows with
  | nil =>
    intro y rs
    simp only [pass1Layer]
    rw [Eq.comm, List.filter_eq_self]
    intro r hr
    simp [layerHitB]
  | cons row rows ih =>
    intro y rs
    simp only [pass1Layer, ih, pass1Row_snd]
    rw [List.filter_filter]
    apply List.filter_congr
    intro r hr
    simp only [layerHitB_cons, Bool.not_or]
    rw [Bool.and_comm]

theorem pass1Grid_fst (did : String) (ti layers : Nat) :
    ∀ (ls : Grid) (li : Nat) (rs : List Reset),
      (pass1Grid did ti layers ls li rs).1
        = ls.map (List.map (List.map (fun v => if v = ti then 0 else v))) := by
  intro ls
  induction ls with
  | nil => intro li rs; rfl
  | cons layer ls ih =>
    intro li rs
    simp only [pass1Grid, List.map_cons, ih, pass1Layer_fst]

theorem pass1Grid_snd (did : String) (ti layers : Nat) :
    ∀ (ls : Grid) (li : Nat) (rs : List Reset), li + ls.length ≤ layers →
      (pass1Grid did ti layers ls li rs).2
        = rs.filter (fun r => ! gridHitB did ti layers ls li r) := by
  intro ls
  induction ls with
  | nil =>
    intro li rs _
    simp only [pass1Grid]
    rw [Eq.comm, List.filter_eq_self]
    intro r hr
    simp [gridHitB]
  | cons layer ls ih =>
    intro li rs h
    simp only [List.length_cons] at h
    simp only [pass1Grid, pass1Layer_snd, ih (li + 1) _ (by omega)]
    rw [List.filter_filter]
    apply List.filter_congr
    intro r hr
    rw [gridHitB_cons did ti layers layer ls li r (by simp only [List.length_cons]; omega)]
    simp only [Bool.not_or]
    rw [Bool.and_comm]

theorem gridHitB_eq_cleared (did : String) (ti : Nat) (dims : Dimensions) (g : Grid)
    (wf : GridWF dims g) (r : Reset) :
    gridHitB did ti dims.layers g 0 r
      = (decide (r.roomRef.dungeonId = did)
          && inBoundsB dims (r.roomRef.x, r.roomRef.y, r.roomRef.z)
          && decide (getCell dims g (r.roomRef.x, r.roomRef.y, r.roomRef.z) = ti)) := by
  obtain ⟨tid, ⟨rdid, rx, ry, rz⟩, mn, mx⟩ := r
  apply Bool.coe_iff_coe.mp
  simp only [gridHitB, layerHitB, rowHitB, inBoundsB, getCell, Bool.and_eq_true,
    Bool.or_eq_true, decide_eq_true_eq, Nat.add_zero, Nat.sub_zero, Nat.zero_le,
    true_and, and_assoc, eq_self_iff_true, and_true]
  by_cases hrz : rz < dims.layers
  · have hL : dims.layers - 1 - rz < dims.layers := by omega
    have hrows := (wf.2 (dims.layers - 1 - rz) hL).1
    simp only [hrz, if_true, hrows, wf.1, hL, true_and]
    constructor
    · rintro ⟨h1, h2, h3, h4⟩
      have hrow := (wf.2 (dims.layers - 1 - rz) hL).2 ry h1
      exact ⟨h2, hrow ▸ h3, h1, h4⟩
    · rintro ⟨h2, h3, h1, h4⟩
      have hrow := (wf.2 (dims.layers - 1 - rz) hL).2 ry h1
      exact ⟨h1, h2, by rw [hrow]; exact h3, h4⟩
  · simp only [hrz, if_false]
    constructor
    · rintro ⟨h, _⟩
      exact h.elim
    · rintro ⟨_, _, _, h, _⟩
      exact h.elim

theorem reindex_comp (i : Nat) : ∀ v : Nat,
    (if (if v = i + 1 then 0 else v) > i + 1 then (if v = i + 1 then 0 else v) - 1
     else (if v = i + 1 then 0 else v)) = reindexAfterDelete i v := by
  intro v
  unfold reindexAfterDelete
  split_ifs <;> omega

theorem getCell_map (dims : Dimensions) (g : Grid) (f : Nat → Nat) (hf : f 0 = 0)
    (c : Coord) :
    getCell dims (g.map (List.map (List.map f))) c = f (getCell dims g c) := by
  obtain ⟨x, y, z⟩ := c
  simp only [getCell]
  by_cases hz : z < dims.layers
  · simp only [hz, if_true]
    conv_lhs => rw [show ([] : List (List Nat)) = List.map (List.map f) [] from rfl]
    rw [List.getD_map]
    conv_lhs => rw [show ([] : List Nat) = List.map f [] from rfl]
    rw [List.getD_map]
    conv_lhs => rw [show (0 : Nat) = f 0 from hf.symm]
    rw [List.getD_map]
  · simp only [hz, if_false]
    exact hf.symm

/-- **C7**: deleting room template `i` (in range, on a well-formed grid)
yields `rooms.eraseIdx i`; every grid cell is re-indexed — cells holding
`i+1` become 0, values above `i+1` are decremented, others kept — and the
resets removed are exactly those whose reference names (for this dungeon
id) an in-bounds cell that held `i+1`; templates and the rest of the
document are untouched. -/
theorem delete_room_template (d : Dungeon) (did : String) (i : Nat)
    (wf : GridWF d.dimensions d.grid) (hi : i < d.rooms.length) :
    (deleteRoomTemplate d did i).rooms = d.rooms.eraseIdx i
    ∧ (∀ c : Coord, getCell d.dimensions (deleteRoomTemplate d did i).grid c
        = reindexAfterDelete i (getCell d.dimensions d.grid c))
    ∧ (deleteRoomTemplate d did i).resets
        = d.resets.filter (fun r =>
            ! (decide (r.roomRef.dungeonId = did)
               && inBoundsB d.dimensions (r.roomRef.x, r.roomRef.y, r.roomRef.z)
               && decide (getCell d.dimensions d.grid
                    (r.roomRef.x, r.roomRef.y, r.roomRef.z) = i + 1)))
    ∧ (deleteRoomTemplate d did i).templates = d.templates := by
  have hgrid : (deleteRoomTemplate d did i).grid
      = d.grid.map (List.map (List.map (reindexAfterDelete i))) := by
    simp only [deleteRoomTemplate, if_pos hi, pass1Grid_fst, List.map_map]
    apply List.map_congr_left
    intro layer _
    simp only [Function.comp, List.map_map]
    apply List.map_congr_left
    intro row _
    simp only [Function.comp, List.map_map]
    apply List.map_congr_left
    intro v _
    exact reindex_comp i v
  refine ⟨by simp [deleteRoomTemplate, if_pos hi], ?_, ?_, by simp [deleteRoomTemplate, if_pos hi]⟩
  · intro c
    rw [hgrid, getCell_map]
    simp [reindexAfterDelete]
  · simp only [deleteRoomTemplate, if_pos hi]
    rw [pass1Grid_snd did (i + 1) d.dimensions.layers d.grid 0 d.resets (by rw [wf.1]; omega)]
    apply List.filter_congr
    intro r hr
    rw [gridHitB_eq_cleared did (i + 1) d.dimensions d.grid wf r]

/-- The spec's concrete re-indexing example: rooms [A, B, C], a C cell
(value 3) at (0,0,0) and a B cell (value 2) at (1,0,0), a reset on the B
cell and another on the C cell. -/
def dC7 : Dungeon :=
  { dimensions := ⟨2, 1, 1⟩
    grid := [[[3, 2]]]
    rooms := [{ display := some "A" }, { display := some "B" }, { display := some "C" }]
    templates := [⟨"mob1", "mob", none⟩, ⟨"mob2", "mob", none⟩]
    resets := [⟨"mob1", ⟨"d", 1, 0, 0⟩, some 1, some 1⟩,
               ⟨"mob2", ⟨"d", 0, 0, 0⟩, some 1, some 1⟩]
    resetMessage := none }

/-- Witness for C7 at the spec's [A,B,C] example: deleting B yields rooms
[A, C], the former C reference 3 becomes 2, the cleared B cell becomes 0,
the B cell's reset is removed and the C cell's reset survives. -/
theorem delete_room_template_witness :
    (deleteRoomTemplate dC7 "d" 1).rooms = [{ display := some "A" }, { display := some "C" }]
    ∧ getCell dC7.dimensions (deleteRoomTemplate dC7 "d" 1).grid (0, 0, 0) = 2
    ∧ getCell dC7.dimensions (deleteRoomTemplate dC7 "d" 1).grid (1, 0, 0) = 0
    ∧ (deleteRoomTemplate dC7 "d" 1).resets = [⟨"mob2", ⟨"d", 0, 0, 0⟩, some 1, some 1⟩]
    ∧ (deleteRoomTemplate dC7 "d" 1).templates = dC7.templates := by
  have h := delete_room_template dC7 "d" 1 (by decide) (by decide)
  exact ⟨h.1.trans (by decide), (h.2.1 (0, 0, 0)).trans (by decide),
    (h.2.1 (1, 0, 0)).trans (by decide), h.2.2.1.trans (by decide), h.2.2.2⟩

/-! ### Copy / paste (`copySelection`, `pasteSelection`) -/

/-- A clipboard cell: offsets relative to the selection's minimum corner,
and the 0-based room index or `-1` for an empty cell. -/
structure ClipCell where
  relX : Nat
  relY : Nat
  relZ : Nat
  roomIndex : Int
deriving DecidableEq, Repr

/-- A clipboard reset: relative offsets plus a deep copy of the record. -/
structure ClipReset where
  relX : Nat
  relY : Nat
  relZ : Nat
  reset : Reset
deriving DecidableEq, Repr

structure Clipboard where
  cells : List ClipCell
  resets : List ClipReset
  minX : Nat
  minY : Nat
  minZ : Nat
deriving DecidableEq, Repr

/-- `Math.min` folded over a coordinate list; the source seeds with
`Infinity`, so on the nonempty selections `copySelection` operates on this
equals the fold from the first element. -/
def minNat : List Nat → Nat
  | [] => 0
  | x :: xs => xs.foldl min x

/-- `copySelection()`: record every selected cell (empty ones included)
relative to the selection's minimum (x, y, z), plus a deep copy of each
reset attached to a selected cell that holds a room. -/
def copySelection (d : Dungeon) (did : String) (sel : List Coord) : Clipboard :=
  let mX := minNat (sel.map (fun c => c.1))
  let mY := minNat (sel.map (fun c => c.2.1))
  let mZ := minNat (sel.map (fun c => c.2.2))
  { cells := sel.map (fun c =>
      let ri := getCell d.dimensions d.grid c
      ⟨c.1 - mX, c.2.1 - mY, c.2.2 - mZ, if ri > 0 then (ri : Int) - 1 else -1⟩)
    resets := sel.flatMap (fun c =>
      if getCell d.dimensions d.grid c > 0 then
        (d.resets.filter (fun r => r.roomRef = mkRoomRef did c)).map
          (fun r => ⟨c.1 - mX, c.2.1 - mY, c.2.2 - mZ, r⟩)
      else [])
    minX := mX
    minY := mY
    minZ := mZ }

/-- One clipboard cell applied at its translated target: skip when out of
bounds; an empty-sentinel cell deletes a present room and that
coordinate's resets; otherwise the room index is written back (converted
to its 1-based value). -/
def pasteCellStep (d : Dungeon) (did : String) (pX pY pZ : Nat)
    (acc : Grid × List Reset) (cell : ClipCell) : Grid × List Reset :=
  let t : Coord := (pX + cell.relX, pY + cell.relY, pZ + cell.relZ)
  if inBoundsB d.dimensions t then
    if cell.roomIndex = -1 then
      if getCell d.dimensions acc.1 t > 0 then
        (setCell d.dimensions acc.1 t 0,
         acc.2.filter (fun r => ¬ r.roomRef = mkRoomRef did t))
      else acc
    else (setCell d.dimensions acc.1 t (cell.roomIndex + 1).toNat, acc.2)
  else acc

/-- One clipboard reset translated to its paste target: a copy with the
rewritten `roomRef`, or `none` when the target is out of bounds. -/
def pasteResetStep (d : Dungeon) (did : String) (pX pY pZ : Nat)
    (cr : ClipReset) : Option Reset :=
  let t : Coord := (pX + cr.relX, pY + cr.relY, pZ + cr.relZ)
  if inBoundsB d.dimensions t then some { cr.reset with roomRef := mkRoomRef did t }
  else none

/-- `pasteSelection()` with anchor `(pX, pY)` on layer `pZ`: first
re-apply every in-bounds clipboard cell, then push a copy of every
in-bounds clipboard reset with its `roomRef` rewritten to the translated
coordinate. Out-of-bounds targets are skipped and counted. -/
def pasteSelection (d : Dungeon) (did : String) (cb : Clipboard)
    (pX pY pZ : Nat) : Dungeon :=
  let gr := cb.cells.foldl (pasteCellStep d did pX pY pZ) (d.grid, d.resets)
  let newResets := cb.resets.filterMap (pasteResetStep d did pX pY pZ)
  { d with grid := gr.1, resets := gr.2 ++ newResets }

theorem foldl_min_le_init : ∀ (t : List Nat) (a : Nat), t.foldl min a ≤ a := by
  intro t
  induction t with
  | nil => intro a; exact Nat.le_refl a
  | cons b t ih =>
    intro a
    exact Nat.le_trans (ih (min a b)) (Nat.min_le_left a b)

theorem foldl_min_le_mem : ∀ (t : List Nat) (a x : Nat), x ∈ t → t.foldl min a ≤ x := by
  intro t
  induction t with
  | nil => intro a x hx; cases hx
  | cons b t ih =>
    intro a x hx
    rcases List.mem_cons.mp hx with h | h
    · subst h
      exact Nat.le_trans (foldl_min_le_init t (min a x)) (Nat.min_le_right a x)
    · exact ih (min a b) x h

theorem minNat_le (l : List Nat) (x : Nat) (hx : x ∈ l) : minNat l ≤ x := by
  match l, hx with
  | a :: t, hx =>
    rcases List.mem_cons.mp hx with h | h
    · subst h
      exact foldl_min_le_init t x
    · exact foldl_min_le_mem t a x h

theorem foldl_fixed {α β : Type} (g : β → α → β) (b : β) :
    ∀ l : List α, (∀ x ∈ l, g b x = b) → l.foldl g b = b := by
  intro l
  induction l with
  | nil => intro _; rfl
  | cons x t ih =>
    intro h
    rw [List.foldl_cons, h x (List.mem_cons_self x t)]
    exact ih (fun y hy => h y (List.mem_cons_of_mem x hy))

theorem filterMap_eq_map_of {α β : Type} (g : α → Option β) (f : α → β) :
    ∀ l : List α, (∀ x ∈ l, g x = some (f x)) → l.filterMap g = l.map f := by
  intro l
  induction l with
  | nil => intro _; rfl
  | cons x t ih =>
    intro h
    rw [List.filterMap_cons, h x (List.mem_cons_self x t), List.map_cons]
    rw [ih (fun y hy => h y (List.mem_cons_of_mem x hy))]

/-- **C4** (amended): copying a selection (in bounds, on a well-formed
grid) and pasting with the anchor at the selection's minimum coordinate
leaves the grid deep-equal to its pre-copy state (relative offsets
resolve back to the source cells), but the resets are *appended*, not
restored in place: the final reset list is the original list followed by
a copy of each selected room cell's resets at their original coordinates,
so the reset set (as a set of records) is preserved while the copied
records are duplicated and the document is not deep-equal afterward. -/
theorem copy_paste_roundtrip (d : Dungeon) (did : String) (sel : List Coord)
    (wf : GridWF d.dimensions d.grid) (_hne : sel ≠ [])
    (hin : ∀ c ∈ sel, inBoundsB d.dimensions c = true) :
    (pasteSelection d did (copySelection d did sel)
        (copySelection d did sel).minX (copySelection d did sel).minY
        (copySelection d did sel).minZ).grid = d.grid
    ∧ (pasteSelection d did (copySelection d did sel)
        (copySelection d did sel).minX (copySelection d did sel).minY
        (copySelection d did sel).minZ).resets
      = d.resets ++ sel.flatMap (fun c =>
          if getCell d.dimensions d.grid c > 0 then
            d.resets.filter (fun r => r.roomRef = mkRoomRef did c)
          else [])
    ∧ (pasteSelection d did (copySelection d did sel)
        (copySelection d did sel).minX (copySelection d did sel).minY
        (copySelection d did sel).minZ).rooms = d.rooms
    ∧ (pasteSelection d did (copySelection d did sel)
        (copySelection d did sel).minX (copySelection d did sel).minY
        (copySelection d did sel).minZ).templates = d.templates := by
  set mX := minNat (sel.map (fun c => c.1)) with hmX
  set mY := minNat (sel.map (fun c => c.2.1)) with hmY
  set mZ := minNat (sel.map (fun c => c.2.2)) with hmZ
  have htarget : ∀ c ∈ sel,
      ((mX + (c.1 - mX), mY + (c.2.1 - mY), mZ + (c.2.2 - mZ)) : Coord) = c := by
    intro c hc
    obtain ⟨x, y, z⟩ := c
    have h1 : mX ≤ x := minNat_le _ _ (List.mem_map_of_mem (fun c => c.1) hc)
    have h2 : mY ≤ y := minNat_le _ _ (List.mem_map_of_mem (fun c => c.2.1) hc)
    have h3 : mZ ≤ z := minNat_le _ _ (List.mem_map_of_mem (fun c => c.2.2) hc)
    simp only [Prod.mk.injEq]
    refine ⟨by omega, by omega, by omega⟩
  have hfold : (copySelection d did sel).cells.foldl
      (pasteCellStep d did mX mY mZ) (d.grid, d.resets) = (d.grid, d.resets) := by
    apply foldl_fixed
    intro cell hcell
    simp only [copySelection, List.mem_map] at hcell
    obtain ⟨c, hc, hcelleq⟩ := hcell
    subst hcelleq
    simp only [pasteCellStep]
    rw [htarget c hc]
    rw [if_pos (hin c hc)]
    by_cases hri : getCell d.dimensions d.grid c > 0
    · rw [if_neg (by omega : ¬ ((if getCell d.dimensions d.grid c > 0
          then (getCell d.dimensions d.grid c : Int) - 1 else -1) = -1))]
      have hval : ((if getCell d.dimensions d.grid c > 0
          then (getCell d.dimensions d.grid c : Int) - 1 else -1) + 1).toNat
          = getCell d.dimensions d.grid c := by
        rw [if_pos hri]
        omega
      rw [hval, setCell_getCell_self d.dimensions d.grid c wf (hin c hc)]
    · simp [hri]
  have hresets : (copySelection d did sel).resets.filterMap
      (pasteResetStep d did mX mY mZ)
      = sel.flatMap (fun c =>
          if getCell d.dimensions d.grid c > 0 then
            d.resets.filter (fun r => r.roomRef = mkRoomRef did c)
          else []) := by
    rw [filterMap_eq_map_of _ ClipReset.reset]
    · simp only [copySelection]
      rw [List.map_flatMap]
      apply List.flatMap_congr
      intro c hc
      by_cases hri : getCell d.dimensions d.grid c > 0
      · rw [if_pos hri, if_pos hri, List.map_map]
        exact List.map_id _
      · rw [if_neg hri, if_neg hri]
        rfl
    · intro cr hcr
      simp only [copySelection, List.mem_flatMap] at hcr
      obtain ⟨c, hc, hcr2⟩ := hcr
      by_cases hri : getCell d.dimensions d.grid c > 0
      · rw [if_pos hri] at hcr2
        simp only [List.mem_map] at hcr2
        obtain ⟨r, hrmem, hre⟩ := hcr2
        subst hre
        simp only [pasteResetStep]
        rw [htarget c hc, if_pos (hin c hc)]
        have hP := List.of_mem_filter hrmem
        simp only [decide_eq_true_eq] at hP
        rw [← hP]
      · rw [if_neg hri] at hcr2
        cases hcr2
  have hpX : (copySelection d did sel).minX = mX := rfl
  have hpY : (copySelection d did sel).minY = mY := rfl
  have hpZ : (copySelection d did sel).minZ = mZ := rfl
  rw [hpX, hpY, hpZ]
  refine ⟨?_, ?_, rfl, rfl⟩
  · show ((copySelection d did sel).cells.foldl
      (pasteCellStep d did mX mY mZ) (d.grid, d.resets)).1 = d.grid
    rw [hfold]
  · show ((copySelection d did sel).cells.foldl
        (pasteCellStep d did mX mY mZ) (d.grid, d.resets)).2
      ++ (copySelection d did sel).resets.filterMap (pasteResetStep d did mX mY mZ)
      = _
    rw [hfold, hresets]

/-- A 1×1×1 document with one placed room carrying one reset. -/
def dC4 : Dungeon :=
  { dimensions := ⟨1, 1, 1⟩
    grid := [[[1]]]
    rooms := [{ display := some "A" }]
    templates := [⟨"m1", "mob", none⟩]
    resets := [⟨"m1", ⟨"d", 0, 0, 0⟩, some 1, some 1⟩]
    resetMessage := none }

/-- Witness for C4 on `dC4`: the grid round-trips unchanged and the
region's reset is appended once more. -/
theorem copy_paste_roundtrip_witness :
    (pasteSelection dC4 "d" (copySelection dC4 "d" [(0, 0, 0)])
        (copySelection dC4 "d" [(0, 0, 0)]).minX
        (copySelection dC4 "d" [(0, 0, 0)]).minY
        (copySelection dC4 "d" [(0, 0, 0)]).minZ).grid = dC4.grid
    ∧ (pasteSelection dC4 "d" (copySelection dC4 "d" [(0, 0, 0)])
        (copySelection dC4 "d" [(0, 0, 0)]).minX
        (copySelection dC4 "d" [(0, 0, 0)]).minY
        (copySelection dC4 "d" [(0, 0, 0)]).minZ).resets
      = dC4.resets ++ [⟨"m1", ⟨"d", 0, 0, 0⟩, some 1, some 1⟩] := by
  have h := copy_paste_roundtrip dC4 "d" [(0, 0, 0)] (by decide) (by decide) (by decide)
  exact ⟨h.1, h.2.1.trans (by decide)⟩

/-- **C4** counterexample: copying the whole 1×1×1 document `dC4` and
pasting at the selection's minimum anchor (0,0,0) duplicates the region's
reset record, so the document is not deep-equal to its pre-copy state on
the copied region (here, the whole document), contrary to the claim. -/
theorem copy_paste_roundtrip_counterexample :
    (pasteSelection dC4 "d" (copySelection dC4 "d" [(0, 0, 0)]) 0 0 0).grid = dC4.grid
    ∧ (pasteSelection dC4 "d" (copySelection dC4 "d" [(0, 0, 0)]) 0 0 0).resets
        = [⟨"m1", ⟨"d", 0, 0, 0⟩, some 1, some 1⟩, ⟨"m1", ⟨"d", 0, 0, 0⟩, some 1, some 1⟩]
    ∧ ¬ ((pasteSelection dC4 "d" (copySelection dC4 "d" [(0, 0, 0)]) 0 0 0) = dC4) := by
  decide

/-! ### Flood-fill paint (`placeRoomTemplate` in paint mode)

The source runs a BFS from the clicked origin: it pops from the front of
a work queue, skips already-visited coordinates, marks the popped cell
visited, fills it with the new template index when its current value
matches the origin's original value, and then enqueues the four lateral
neighbours that pass the bounds check. The embedding adds a fuel
parameter (one unit per queue pop) and an in-bounds skip on the popped
cell; neither changes the result on the modelled domain: every enqueued
cell is bounds-checked by the source, so with an in-bounds origin every
pop is in bounds, and `floodFillAux_stable` below proves the supplied
fuel is never exhausted before the queue empties. -/

/-- The neighbours enqueued for a popped cell, in source order (up, down,
left, right), each filtered by the source's
`0 ≤ next < bound` check on all three axes. -/
def nbrs (dims : Dimensions) (c : Coord) : List Coord :=
  (if c.1 < dims.width ∧ 1 ≤ c.2.1 ∧ c.2.1 - 1 < dims.height ∧ c.2.2 < dims.layers
    then [(c.1, c.2.1 - 1, c.2.2)] else []) ++
  (if c.1 < dims.width ∧ c.2.1 + 1 < dims.height ∧ c.2.2 < dims.layers
    then [(c.1, c.2.1 + 1, c.2.2)] else []) ++
  (if 1 ≤ c.1 ∧ c.1 - 1 < dims.width ∧ c.2.1 < dims.height ∧ c.2.2 < dims.layers
    then [(c.1 - 1, c.2.1, c.2.2)] else []) ++
  (if c.1 + 1 < dims.width ∧ c.2.1 < dims.height ∧ c.2.2 < dims.layers
    then [(c.1 + 1, c.2.1, c.2.2)] else [])

/-- The BFS loop: `tv` is the origin's original value, `ti` the new
template index; one fuel unit is spent per pop. -/
def floodFillAux (dims : Dimensions) (tv ti : Nat) :
    Nat → Grid → List Coord → List Coord → Grid
  | 0, g, _, _ => g
  | fuel + 1, g, visited, queue =>
    match queue with
    | [] => g
    | c :: rest =>
      if c ∈ visited then floodFillAux dims tv ti fuel g visited rest
      else
        if inBoundsB dims c then
          if getCell dims g c = tv then
            floodFillAux dims tv ti fuel (setCell dims g c ti) (c :: visited)
              (rest ++ nbrs dims c)
          else floodFillAux dims tv ti fuel g (c :: visited) rest
        else floodFillAux dims tv ti fuel g (c :: visited) rest

/-- The flood fill of `placeRoomTemplate` in paint mode: match value is
the origin's current value, fill value is the selected template's 1-based
index. -/
def floodFillFuel (dims : Dimensions) (g : Grid) (sel : Nat) (c : Coord) : Grid :=
  floodFillAux dims (getCell dims g c) (sel + 1)
    (5 * (dims.width * dims.height * dims.layers) + 2) g [] [c]

/-- Paint mode only rewrites grid cells; the resets (and everything else)
are untouched. -/
def paintPlace (d : Dungeon) (sel : Nat) (c : Coord) : Dungeon :=
  { d with grid := floodFillFuel d.dimensions d.grid sel c }

/-- Lateral 4-adjacency (same layer). -/
def adj (c c2 : Coord) : Prop :=
  c2.2.2 = c.2.2 ∧
    ((c2.1 = c.1 ∧ (c2.2.1 = c.2.1 + 1 ∨ c2.2.1 + 1 = c.2.1)) ∨
     (c2.2.1 = c.2.1 ∧ (c2.1 = c.1 + 1 ∨ c2.1 + 1 = c.1)))

/-- 4-connected reachability from the origin through in-bounds cells
holding the origin's original value `tv`, on the grid `g`. -/
inductive ReachFrom (dims : Dimensions) (g : Grid) (tv : Nat) (o : Coord) : Coord → Prop
  | base : inBoundsB dims o = true → getCell dims g o = tv → ReachFrom dims g tv o o
  | step {c c2 : Coord} : ReachFrom dims g tv o c → adj c c2 →
      inBoundsB dims c2 = true → getCell dims g c2 = tv → ReachFrom dims g tv o c2

theorem mem_nbrs (dims : Dimensions) (c c2 : Coord) (h : c2 ∈ nbrs dims c) :
    adj c c2 ∧ inBoundsB dims c2 = true := by
  obtain ⟨x, y, z⟩ := c
  simp only [nbrs, List.mem_append, List.mem_ite_nil_right, List.mem_singleton] at h
  rcases h with ((⟨hc, he⟩ | ⟨hc, he⟩) | ⟨hc, he⟩) | ⟨hc, he⟩
  all_goals subst he
  all_goals simp only [adj, inBoundsB, Bool.and_eq_true, decide_eq_true_eq,
    true_and, and_true]
  · exact ⟨Or.inl (Or.inr (by omega)), ⟨hc.1, hc.2.2.1⟩, hc.2.2.2⟩
  · exact ⟨Or.inl (Or.inl trivial), ⟨hc.1, hc.2.1⟩, hc.2.2⟩
  · exact ⟨Or.inr (Or.inr (by omega)), ⟨hc.2.1, hc.2.2.1⟩, hc.2.2.2⟩
  · exact ⟨Or.inr (Or.inl trivial), ⟨hc.1, hc.2.1⟩, hc.2.2⟩

theorem floodFillAux_wf (dims : Dimensions) (tv ti : Nat) :
    ∀ (fuel : Nat) (g : Grid) (visited queue : List Coord), GridWF dims g →
      GridWF dims (floodFillAux dims tv ti fuel g visited queue) := by
  intro fuel
  induction fuel with
  | zero => intro g visited queue wf; exact wf
  | succ fuel ih =>
    intro g visited queue wf
    match queue with
    | [] => exact wf
    | c :: rest =>
      simp only [floodFillAux]
      by_cases hv : c ∈ visited
      · rw [if_pos hv]; exact ih g visited rest wf
      · rw [if_neg hv]
        by_cases hb : inBoundsB dims c = true
        · rw [if_pos hb]
          by_cases hm : getCell dims g c = tv
          · rw [if_pos hm]
            exact ih _ _ _ (GridWF_setCell dims g c ti wf)
          · rw [if_neg hm]; exact ih g _ rest wf
        · rw [if_neg hb]; exact ih g _ rest wf

theorem floodFillAux_sound (dims : Dimensions) (tv ti : Nat) (g0 : Grid) (o : Coord) :
    ∀ (fuel : Nat) (g : Grid) (visited queue : List Coord),
      GridWF dims g →
      (∀ c, ¬ c ∈ visited → getCell dims g c = getCell dims g0 c) →
      (∀ c, ¬ getCell dims g c = getCell dims g0 c →
        getCell dims g c = ti ∧ ReachFrom dims g0 tv o c) →
      (∀ c ∈ queue, inBoundsB dims c = true → getCell dims g0 c = tv →
        ReachFrom dims g0 tv o c) →
      ∀ c, ¬ getCell dims (floodFillAux dims tv ti fuel g visited queue) c
              = getCell dims g0 c →
        getCell dims (floodFillAux dims tv ti fuel g visited queue) c = ti
        ∧ ReachFrom dims g0 tv o c := by
  intro fuel
  induction fuel with
  | zero => intro g visited queue _ _ hC _; exact hC
  | succ fuel ih =>
    intro g visited queue wf hB hC hD
    match queue with
    | [] => exact hC
    | c0 :: rest =>
      simp only [floodFillAux]
      by_cases hv : c0 ∈ visited
      · rw [if_pos hv]
        exact ih g visited rest wf hB hC (fun c hc => hD c (List.mem_cons_of_mem c0 hc))
      · rw [if_neg hv]
        by_cases hb : inBoundsB dims c0 = true
        · rw [if_pos hb]
          by_cases hm : getCell dims g c0 = tv
          · rw [if_pos hm]
            have hg0c0 : getCell dims g0 c0 = tv := by
              rw [← hB c0 hv]; exact hm
            have hreach : ReachFrom dims g0 tv o c0 :=
              hD c0 (List.mem_cons_self c0 rest) hb hg0c0
            apply ih (setCell dims g c0 ti) (c0 :: visited) (rest ++ nbrs dims c0)
              (GridWF_setCell dims g c0 ti wf)
            · intro c hc
              have hne : c ≠ c0 := fun he => hc (he ▸ List.mem_cons_self c0 visited)
              rw [getCell_setCell_ne dims g c0 c ti hne]
              exact hB c (fun hcv => hc (List.mem_cons_of_mem c0 hcv))
            · intro c hc
              by_cases hce : c = c0
              · subst hce
                rw [getCell_setCell_self dims g c ti wf hb]
                exact ⟨rfl, hreach⟩
              · rw [getCell_setCell_ne dims g c0 c ti hce] at hc ⊢
                exact hC c hc
            · intro c hc hcb hcv
              rcases List.mem_append.mp hc with hcr | hcn
              · exact hD c (List.mem_cons_of_mem c0 hcr) hcb hcv
              · obtain ⟨hadj, _⟩ := mem_nbrs dims c0 c hcn
                exact ReachFrom.step hreach hadj hcb hcv
          · rw [if_neg hm]
            exact ih g (c0 :: visited) rest wf
              (fun c hc => hB c (fun hcv => hc (List.mem_cons_of_mem c0 hcv))) hC
              (fun c hc => hD c (List.mem_cons_of_mem c0 hc))
        · rw [if_neg hb]
          exact ih g (c0 :: visited) rest wf
            (fun c hc => hB c (fun hcv => hc (List.mem_cons_of_mem c0 hcv))) hC
            (fun c hc => hD c (List.mem_cons_of_mem c0 hc))

/-- A 5×5 single-layer all-empty document with one room template T. -/
def d5a : Dungeon :=
  { dimensions := ⟨5, 5, 1⟩
    grid := [[[0, 0, 0, 0, 0], [0, 0, 0, 0, 0], [0, 0, 0, 0, 0],
              [0, 0, 0, 0, 0], [0, 0, 0, 0, 0]]]
    rooms := [{ display := some "T" }]
    templates := []
    resets := []
    resetMessage := none }

/-- `d5a` with the single cell (2,3) pre-filled with template U (value 2). -/
def d5b : Dungeon :=
  { dimensions := ⟨5, 5, 1⟩
    grid := [[[0, 0, 0, 0, 0], [0, 0, 0, 0, 0], [0, 0, 0, 0, 0],
              [0, 0, 2, 0, 0], [0, 0, 0, 0, 0]]]
    rooms := [{ display := some "T" }, { display := some "U" }]
    templates := []
    resets := []
    resetMessage := none }

/-- **C5**: paint-place only modifies cells 4-connected to the origin
through in-bounds cells holding the origin's original value, and fills
each modified cell with the selected template's 1-based index (general
soundness, for any well-formed document and in-bounds origin); concretely,
on the 5×5 all-empty layer paint-place of T at (2,2) fills all 25 cells,
and with (2,3) pre-filled with U, paint-place of T at (0,0) fills the 24
empty cells and leaves (2,3) = U unchanged. -/
theorem paint_place_reach :
    (∀ (d : Dungeon) (sel : Nat) (o : Coord),
      GridWF d.dimensions d.grid → inBoundsB d.dimensions o = true →
      ∀ c : Coord,
        ¬ getCell d.dimensions (paintPlace d sel o).grid c
            = getCell d.dimensions d.grid c →
        getCell d.dimensions (paintPlace d sel o).grid c = sel + 1
        ∧ ReachFrom d.dimensions d.grid (getCell d.dimensions d.grid o) o c)
    ∧ (paintPlace d5a 0 (2, 2, 0)).grid
        = [[[1, 1, 1, 1, 1], [1, 1, 1, 1, 1], [1, 1, 1, 1, 1],
            [1, 1, 1, 1, 1], [1, 1, 1, 1, 1]]]
    ∧ (paintPlace d5b 0 (0, 0, 0)).grid
        = [[[1, 1, 1, 1, 1], [1, 1, 1, 1, 1], [1, 1, 1, 1, 1],
            [1, 1, 2, 1, 1], [1, 1, 1, 1, 1]]]
    ∧ getCell d5b.dimensions (paintPlace d5b 0 (0, 0, 0)).grid (2, 3, 0) = 2 := by
  refine ⟨?_, by decide, by decide, by decide⟩
  intro d sel o wf hb c hc
  have hD : ∀ e ∈ [o], inBoundsB d.dimensions e = true →
      getCell d.dimensions d.grid e = getCell d.dimensions d.grid o →
      ReachFrom d.dimensions d.grid (getCell d.dimensions d.grid o) o e := by
    intro e he heb hev
    rcases List.mem_singleton.mp he with rfl
    exact ReachFrom.base heb hev
  exact floodFillAux_sound d.dimensions (getCell d.dimensions d.grid o) (sel + 1)
    d.grid o _ d.grid [] [o] wf (fun _ _ => rfl) (fun c hc => absurd rfl hc) hD c hc

/-- Witness for C5's general part: on `d5b`, cell (1,0) changes to 1 and
is reachable from the origin (0,0) through empty cells. -/
theorem paint_place_reach_witness :
    getCell d5b.dimensions (paintPlace d5b 0 (0, 0, 0)).grid (1, 0, 0) = 0 + 1
    ∧ ReachFrom d5b.dimensions d5b.grid
        (getCell d5b.dimensions d5b.grid (0, 0, 0)) (0, 0, 0) (1, 0, 0) :=
  paint_place_reach.1 d5b 0 (0, 0, 0) (by decide) (by decide) (1, 0, 0) (by decide)

/-- Every cell the flood fill rewrites is written with the fill value
`ti`: the result agrees with the input grid except at cells holding `ti`. -/
theorem floodFillAux_writes (dims : Dimensions) (tv ti : Nat) :
    ∀ (fuel : Nat) (g : Grid) (visited queue : List Coord), GridWF dims g →
      ∀ c : Coord,
        getCell dims (floodFillAux dims tv ti fuel g visited queue) c
            = getCell dims g c
        ∨ getCell dims (floodFillAux dims tv ti fuel g visited queue) c = ti := by
  intro fuel
  induction fuel with
  | zero => intro g visited queue _ c; exact Or.inl rfl
  | succ fuel ih =>
    intro g visited queue wf c
    match queue with
    | [] => exact Or.inl rfl
    | c0 :: rest =>
      simp only [floodFillAux]
      by_cases hv : c0 ∈ visited
      · rw [if_pos hv]; exact ih g visited rest wf c
      · rw [if_neg hv]
        by_cases hb : inBoundsB dims c0 = true
        · rw [if_pos hb]
          by_cases hm : getCell dims g c0 = tv
          · rw [if_pos hm]
            rcases ih (setCell dims g c0 ti) (c0 :: visited) (rest ++ nbrs dims c0)
              (GridWF_setCell dims g c0 ti wf) c with h | h
            · by_cases hce : c = c0
              · subst hce
                rw [getCell_setCell_self dims g c ti wf hb] at h
                exact Or.inr h
              · rw [getCell_setCell_ne dims g c0 c ti hce] at h
                exact Or.inl h
            · exact Or.inr h
          · rw [if_neg hm]; exact ih g _ rest wf c
        · rw [if_neg hb]; exact ih g _ rest wf c

/-- When the match value equals the fill value, the flood fill writes
every filled cell with its own value and leaves the grid unchanged. -/
theorem floodFillAux_id (dims : Dimensions) (ti : Nat) :
    ∀ (fuel : Nat) (g : Grid) (visited queue : List Coord), GridWF dims g →
      floodFillAux dims ti ti fuel g visited queue = g := by
  intro fuel
  induction fuel with
  | zero => intro g visited queue _; rfl
  | succ fuel ih =>
    intro g visited queue wf
    match queue with
    | [] => rfl
    | c0 :: rest =>
      simp only [floodFillAux]
      by_cases hv : c0 ∈ visited
      · rw [if_pos hv]; exact ih g visited rest wf
      · rw [if_neg hv]
        by_cases hb : inBoundsB dims c0 = true
        · rw [if_pos hb]
          by_cases hm : getCell dims g c0 = ti
          · rw [if_pos hm]
            rw [show setCell dims g c0 ti = g by
              rw [← hm]; exact setCell_getCell_self dims g c0 wf hb]
            exact ih g _ _ wf
          · rw [if_neg hm]; exact ih g _ rest wf
        · rw [if_neg hb]; exact ih g _ rest wf

/-- An in-bounds origin ends up holding the fill value: the first pop
fills it, and every later write also writes `ti`. -/
theorem floodFillFuel_origin (dims : Dimensions) (g : Grid) (sel : Nat) (o : Coord)
    (wf : GridWF dims g) (hb : inBoundsB dims o = true) :
    getCell dims (floodFillFuel dims g sel o) o = sel + 1 := by
  have hstep : ∀ (tv ti fuel : Nat) (g2 : Grid) (visited : List Coord)
      (c : Coord) (rest : List Coord),
      floodFillAux dims tv ti (fuel + 1) g2 visited (c :: rest)
        = if c ∈ visited then floodFillAux dims tv ti fuel g2 visited rest
          else if inBoundsB dims c then
            if getCell dims g2 c = tv then
              floodFillAux dims tv ti fuel (setCell dims g2 c ti) (c :: visited)
                (rest ++ nbrs dims c)
            else floodFillAux dims tv ti fuel g2 (c :: visited) rest
          else floodFillAux dims tv ti fuel g2 (c :: visited) rest :=
    fun _ _ _ _ _ _ _ => rfl
  unfold floodFillFuel
  rw [show 5 * (dims.width * dims.height * dims.layers) + 2
      = (5 * (dims.width * dims.height * dims.layers) + 1) + 1 from rfl]
  rw [hstep]
  rw [if_neg (List.not_mem_nil o), if_pos hb, if_pos rfl]
  have h := floodFillAux_writes dims (getCell dims g o) (sel + 1)
    (5 * (dims.width * dims.height * dims.layers) + 1)
    (setCell dims g o (sel + 1)) [o] ([] ++ nbrs dims o)
    (GridWF_setCell dims g o (sel + 1) wf) o
  rcases h with h | h
  · rw [h, getCell_setCell_self dims g o (sel + 1) wf hb]
  · exact h

theorem nbrs_length_le (dims : Dimensions) (c : Coord) : (nbrs dims c).length ≤ 4 := by
  simp only [nbrs, List.length_append]
  split_ifs <;> simp

/-- One pop strictly decreases `5·(unvisited in-bounds cells) + queue
length`, so that much fuel is never exhausted before the queue empties:
on or above that bound the result no longer depends on the fuel. This is
the termination argument for the source's while-loop, and it certifies
that `floodFillFuel`'s fuel suffices. -/
theorem floodFillAux_stable (dims : Dimensions) (tv ti : Nat) :
    ∀ (fuel : Nat) (g : Grid) (visited queue : List Coord),
      5 * (allCells dims \ visited.toFinset).card + queue.length ≤ fuel →
      floodFillAux dims tv ti (fuel + 1) g visited queue
        = floodFillAux dims tv ti fuel g visited queue := by
  have hstep : ∀ (fuel : Nat) (g2 : Grid) (visited : List Coord)
      (c : Coord) (rest : List Coord),
      floodFillAux dims tv ti (fuel + 1) g2 visited (c :: rest)
        = if c ∈ visited then floodFillAux dims tv ti fuel g2 visited rest
          else if inBoundsB dims c then
            if getCell dims g2 c = tv then
              floodFillAux dims tv ti fuel (setCell dims g2 c ti) (c :: visited)
                (rest ++ nbrs dims c)
            else floodFillAux dims tv ti fuel g2 (c :: visited) rest
          else floodFillAux dims tv ti fuel g2 (c :: visited) rest :=
    fun _ _ _ _ _ => rfl
  intro fuel
  induction fuel with
  | zero =>
    intro g visited queue hμ
    have hq : queue = [] := by
      cases queue with
      | nil => rfl
      | cons c rest => simp at hμ
    subst hq
    rfl
  | succ fuel ih =>
    intro g visited queue hμ
    match queue with
    | [] => rfl
    | c :: rest =>
      rw [hstep (fuel + 1), hstep fuel]
      simp only [List.length_cons] at hμ
      by_cases hv : c ∈ visited
      · rw [if_pos hv, if_pos hv]
        exact ih g visited rest (by omega)
      · rw [if_neg hv, if_neg hv]
        have hins : ((c :: visited).toFinset : Finset Coord)
            = insert c visited.toFinset := by simp
        by_cases hb : inBoundsB dims c = true
        · have hcmem : c ∈ allCells dims \ visited.toFinset := by
            rw [Finset.mem_sdiff]
            exact ⟨(mem_allCells dims c).mpr hb, by simpa using hv⟩
          have hcard : (allCells dims \ (c :: visited).toFinset).card + 1
              = (allCells dims \ visited.toFinset).card := by
            rw [hins, Finset.sdiff_insert]
            rw [Finset.card_erase_of_mem hcmem]
            have : 1 ≤ (allCells dims \ visited.toFinset).card :=
              Finset.card_pos.mpr ⟨c, hcmem⟩
            omega
          rw [if_pos hb, if_pos hb]
          by_cases hm : getCell dims g c = tv
          · rw [if_pos hm, if_pos hm]
            apply ih
            have hlen := nbrs_length_le dims c
            rw [List.length_append]
            omega
          · rw [if_neg hm, if_neg hm]
            exact ih g _ rest (by omega)
        · have hcard : (allCells dims \ (c :: visited).toFinset)
              = allCells dims \ visited.toFinset := by
            rw [hins, Finset.sdiff_insert, Finset.erase_eq_of_not_mem]
            rw [Finset.mem_sdiff]
            intro hmem
            exact hb ((mem_allCells dims c).mp hmem.1)
          rw [if_neg hb, if_neg hb]
          apply ih
          rw [hcard]
          omega

/-- The fuel supplied by `floodFillFuel` is a strict upper bound on the
pops the BFS can perform, so adding any extra fuel never changes the
result: the embedding computes the same grid the source's
run-to-completion loop does. -/
theorem floodFillFuel_enough (dims : Dimensions) (g : Grid) (sel : Nat) (c : Coord) :
    ∀ extra : Nat,
      floodFillAux dims (getCell dims g c) (sel + 1)
        (5 * (dims.width * dims.height * dims.layers) + 2 + extra) g [] [c]
      = floodFillFuel dims g sel c := by
  have hcard : (allCells dims \ (([] : List Coord)).toFinset).card
      = dims.width * (dims.height * dims.layers) := by
    simp only [List.toFinset_nil, Finset.sdiff_empty, allCells]
    rw [Finset.card_product, Finset.card_product]
    simp [Nat.mul_assoc]
  intro extra
  induction extra with
  | zero => rfl
  | succ extra ih =>
    rw [show 5 * (dims.width * dims.height * dims.layers) + 2 + (extra + 1)
        = (5 * (dims.width * dims.height * dims.layers) + 2 + extra) + 1 from rfl]
    rw [floodFillAux_stable dims (getCell dims g c) (sel + 1) _ g [] [c] ?bound]
    · exact ih
    case bound =>
      rw [hcard]
      simp only [List.length_singleton]
      have : dims.width * (dims.height * dims.layers)
          = dims.width * dims.height * dims.layers := by ring
      omega

/-- **C6**: paint-place is idempotent — running paint-place with the same
template at the same (in-bounds) origin twice yields the same document as
running it once (the second run matches on the fill value and rewrites
every cell with its own value) — and paint-place never touches the
resets. -/
theorem paint_place_idempotent (d : Dungeon) (sel : Nat) (o : Coord)
    (wf : GridWF d.dimensions d.grid) (hb : inBoundsB d.dimensions o = true) :
    paintPlace (paintPlace d sel o) sel o = paintPlace d sel o
    ∧ (paintPlace d sel o).resets = d.resets := by
  refine ⟨?_, rfl⟩
  have wf1 : GridWF (paintPlace d sel o).dimensions (paintPlace d sel o).grid := by
    show GridWF d.dimensions (floodFillFuel d.dimensions d.grid sel o)
    exact floodFillAux_wf d.dimensions (getCell d.dimensions d.grid o) (sel + 1)
      _ d.grid [] [o] wf
  have htv : getCell (paintPlace d sel o).dimensions (paintPlace d sel o).grid o
      = sel + 1 := floodFillFuel_origin d.dimensions d.grid sel o wf hb
  show { paintPlace d sel o with
      grid := floodFillFuel (paintPlace d sel o).dimensions (paintPlace d sel o).grid sel o }
    = paintPlace d sel o
  rw [show floodFillFuel (paintPlace d sel o).dimensions (paintPlace d sel o).grid sel o
      = (paintPlace d sel o).grid by
    rw [floodFillFuel, htv]
    exact floodFillAux_id (paintPlace d sel o).dimensions (sel + 1) _
      (paintPlace d sel o).grid [] [o] wf1]

/-- Witness for C6 at the 5×5 document. -/
theorem paint_place_idempotent_witness :
    paintPlace (paintPlace d5b 0 (0, 0, 0)) 0 (0, 0, 0) = paintPlace d5b 0 (0, 0, 0)
    ∧ (paintPlace d5b 0 (0, 0, 0)).resets = d5b.resets :=
  paint_place_idempotent d5b 0 (0, 0, 0) (by decide) (by decide)

end MudEditor